import Mathlib

/-!
A shallow embedding of the order-book matching engine in `src/order_book.py`.

Modelling conventions:
* Python floats (prices, timestamps) become rationals; Python ints (quantities,
  ids) become integers / naturals.  All operations performed on them here
  (comparison, min, subtraction, halving) are exact on floats as well.
* The Python `heapq` heaps hold tuples `(-price, timestamp, order)` for bids and
  `(price, timestamp, order)` for asks; the only operations used are push, peek
  at the minimum, pop the minimum, and rebuild-after-filter.  On keys ordered by
  the tuple order this is observationally a list kept sorted by that key, so
  each side is modelled as a list kept sorted by `bidRel` / `askRel`.
* `Order` objects are mutated in place and shared between a queue and
  `order_map`; the embedding updates both explicitly (`mapSetQty`).
* `time.time()` readings are external inputs: every operation takes the current
  time `now` as an argument.
* The unbounded `while` loops run on explicit fuel; one unit of fuel is spent
  per iteration and the fuel supplied is proved sufficient below.
-/

namespace OrderBookSim

/-- The Python `Order` dataclass (`src/order_book.py`, lines 7-22). -/
structure Order where
  order_id : ℕ
  side : String
  price : ℚ
  quantity : ℤ
  order_type : String
  timestamp : ℚ
  participant_name : String
deriving DecidableEq, Repr

/-- The Python `Trade` named tuple (`src/order_book.py`, lines 25-29). -/
structure Trade where
  timestamp : ℚ
  price : ℚ
  quantity : ℤ
  side : String
deriving DecidableEq, Repr

/-- Priority of the bid heap: Python pushes `(-price, timestamp, order)`, and
`Order.__lt__` compares timestamps, so `x` is at least as early as `y` iff
`x` has the higher price, or equal price and earlier-or-equal timestamp. -/
def bidRel (x y : Order) : Prop :=
  y.price < x.price ∨ (x.price = y.price ∧ x.timestamp ≤ y.timestamp)

/-- Priority of the ask heap: Python pushes `(price, timestamp, order)`. -/
def askRel (x y : Order) : Prop :=
  x.price < y.price ∨ (x.price = y.price ∧ x.timestamp ≤ y.timestamp)

instance : DecidableRel bidRel := fun x y =>
  inferInstanceAs (Decidable (y.price < x.price ∨ (x.price = y.price ∧ x.timestamp ≤ y.timestamp)))

instance : DecidableRel askRel := fun x y =>
  inferInstanceAs (Decidable (x.price < y.price ∨ (x.price = y.price ∧ x.timestamp ≤ y.timestamp)))

instance : IsTotal Order bidRel := by
  constructor
  intro a b
  rcases lt_trichotomy a.price b.price with h | h | h
  · exact Or.inr (Or.inl h)
  · rcases le_total a.timestamp b.timestamp with ht | ht
    · exact Or.inl (Or.inr ⟨h, ht⟩)
    · exact Or.inr (Or.inr ⟨h.symm, ht⟩)
  · exact Or.inl (Or.inl h)

instance : IsTrans Order bidRel := by
  constructor
  intro a b c hab hbc
  rcases hab with h1 | ⟨h1, t1⟩ <;> rcases hbc with h2 | ⟨h2, t2⟩
  · exact Or.inl (h2.trans h1)
  · exact Or.inl (h2 ▸ h1)
  · exact Or.inl (h1 ▸ h2)
  · exact Or.inr ⟨h1.trans h2, t1.trans t2⟩

instance : IsTotal Order askRel := by
  constructor
  intro a b
  rcases lt_trichotomy a.price b.price with h | h | h
  · exact Or.inl (Or.inl h)
  · rcases le_total a.timestamp b.timestamp with ht | ht
    · exact Or.inl (Or.inr ⟨h, ht⟩)
    · exact Or.inr (Or.inr ⟨h.symm, ht⟩)
  · exact Or.inr (Or.inl h)

instance : IsTrans Order askRel := by
  constructor
  intro a b c hab hbc
  rcases hab with h1 | ⟨h1, t1⟩ <;> rcases hbc with h2 | ⟨h2, t2⟩
  · exact Or.inl (h1.trans h2)
  · exact Or.inl (h2 ▸ h1)
  · exact Or.inl (h1 ▸ h2)
  · exact Or.inr ⟨h1.trans h2, t1.trans t2⟩

/-- The engine state: the fields of `OrderBook.__init__`
(`src/order_book.py`, lines 33-39).  The Python dict `order_map` is an
association list with unique keys (ids are issued by the engine). -/
structure Book where
  bids : List Order
  asks : List Order
  order_map : List (ℕ × Order)
  trades : List Trade
  next_order_id : ℕ
  last_trade_price : ℚ
deriving DecidableEq, Repr

/-- `OrderBook()`: empty book, id counter at 1, default last trade price 100.0. -/
def initBook : Book := ⟨[], [], [], [], 1, 100⟩

/-- Dict lookup `order_map[oid]`. -/
def mapLookup (m : List (ℕ × Order)) (oid : ℕ) : Option Order :=
  match m with
  | [] => none
  | (k, o) :: rest => if k = oid then some o else mapLookup rest oid

/-- In Python, decrementing `order.quantity` is visible through `order_map`
because the dict holds the same object; the embedding updates the entry. -/
def mapSetQty (m : List (ℕ × Order)) (oid : ℕ) (q : ℤ) : List (ℕ × Order) :=
  m.map fun p => if p.1 = oid then (p.1, { p.2 with quantity := q }) else p

/-- Dict deletion `del order_map[oid]`. -/
def mapErase (m : List (ℕ × Order)) (oid : ℕ) : List (ℕ × Order) :=
  m.filter fun p => p.1 ≠ oid

/-- Guard of the `while` loop in `OrderBook.match_orders`: both sides
nonempty and best bid price ≥ best ask price. -/
def hasCross (s : Book) : Bool :=
  match s.bids, s.asks with
  | best_bid :: _, best_ask :: _ => decide (best_ask.price ≤ best_bid.price)
  | _, _ => false

/-- One iteration of the `while` loop body of `OrderBook.match_orders`
(`src/order_book.py`, lines 118-134): trade `min` of the two head quantities at
the ask price, tag the trade with the side of the later-stamped order,
decrement both heads, pop any head that reaches zero. -/
def matchStep (now : ℚ) (s : Book) : Book :=
  match s.bids, s.asks with
  | best_bid :: bid_rest, best_ask :: ask_rest =>
    let trade_quantity := min best_bid.quantity best_ask.quantity
    let trade_side := if best_ask.timestamp < best_bid.timestamp then "BUY" else "SELL"
    { s with
      bids := if best_bid.quantity - trade_quantity = 0 then bid_rest
              else { best_bid with quantity := best_bid.quantity - trade_quantity } :: bid_rest,
      asks := if best_ask.quantity - trade_quantity = 0 then ask_rest
              else { best_ask with quantity := best_ask.quantity - trade_quantity } :: ask_rest,
      order_map := mapSetQty (mapSetQty s.order_map best_bid.order_id
                     (best_bid.quantity - trade_quantity)) best_ask.order_id
                     (best_ask.quantity - trade_quantity),
      trades := s.trades ++ [⟨now, best_ask.price, trade_quantity, trade_side⟩],
      last_trade_price := best_ask.price }
  | _, _ => s

/-- The `while` loop of `OrderBook.match_orders`, on fuel. -/
def matchLoopF (now : ℚ) : ℕ → Book → Book
  | 0, s => s
  | fuel + 1, s => if hasCross s then matchLoopF now fuel (matchStep now s) else s

/-- `OrderBook.match_orders` (`src/order_book.py`, lines 115-136).  Each
iteration pops at least one resting order, so `|bids| + |asks|` fuel is enough
(proved below as `matchLoopF_congr`). -/
def match_orders (now : ℚ) (s : Book) : Book :=
  matchLoopF now (s.bids.length + s.asks.length) s

/-- One iteration of the BUY branch loop of `OrderBook._handle_market_order`
(`src/order_book.py`, lines 85-96): trade `min(remaining, best_ask.quantity)`
at the ask price, tag "BUY", decrement the resting head, pop it at zero. -/
def marketBuyStep (now : ℚ) (qty : ℤ) (s : Book) : Book :=
  match s.asks with
  | [] => s
  | best_ask :: ask_rest =>
    let trade_quantity := min qty best_ask.quantity
    { s with
      asks := if best_ask.quantity - trade_quantity = 0 then ask_rest
              else { best_ask with quantity := best_ask.quantity - trade_quantity } :: ask_rest,
      order_map := mapSetQty s.order_map best_ask.order_id
                     (best_ask.quantity - trade_quantity),
      trades := s.trades ++ [⟨now, best_ask.price, trade_quantity, "BUY"⟩],
      last_trade_price := best_ask.price }

/-- Remaining market quantity traded by one BUY-branch iteration. -/
def marketBuyTq (qty : ℤ) (s : Book) : ℤ :=
  match s.asks with
  | [] => 0
  | best_ask :: _ => min qty best_ask.quantity

/-- The BUY branch `while` loop of `OrderBook._handle_market_order`, on fuel. -/
def marketBuyLoopF (now : ℚ) : ℕ → ℤ → Book → Book
  | 0, _, s => s
  | fuel + 1, qty, s =>
    if 0 < qty ∧ s.asks ≠ [] then
      marketBuyLoopF now fuel (qty - marketBuyTq qty s) (marketBuyStep now qty s)
    else s

/-- One iteration of the SELL branch loop of `OrderBook._handle_market_order`
(`src/order_book.py`, lines 101-112). -/
def marketSellStep (now : ℚ) (qty : ℤ) (s : Book) : Book :=
  match s.bids with
  | [] => s
  | best_bid :: bid_rest =>
    let trade_quantity := min qty best_bid.quantity
    { s with
      bids := if best_bid.quantity - trade_quantity = 0 then bid_rest
              else { best_bid with quantity := best_bid.quantity - trade_quantity } :: bid_rest,
      order_map := mapSetQty s.order_map best_bid.order_id
                     (best_bid.quantity - trade_quantity),
      trades := s.trades ++ [⟨now, best_bid.price, trade_quantity, "SELL"⟩],
      last_trade_price := best_bid.price }

/-- Remaining market quantity traded by one SELL-branch iteration. -/
def marketSellTq (qty : ℤ) (s : Book) : ℤ :=
  match s.bids with
  | [] => 0
  | best_bid :: _ => min qty best_bid.quantity

/-- The SELL branch `while` loop of `OrderBook._handle_market_order`, on fuel. -/
def marketSellLoopF (now : ℚ) : ℕ → ℤ → Book → Book
  | 0, _, s => s
  | fuel + 1, qty, s =>
    if 0 < qty ∧ s.bids ≠ [] then
      marketSellLoopF now fuel (qty - marketSellTq qty s) (marketSellStep now qty s)
    else s

/-- The BUY branch loop with its canonical fuel: each iteration pops a resting
order except possibly the last one (which zeroes the remaining market
quantity), so `length + 1` fuel is enough. -/
def marketBuyRun (now : ℚ) (qty : ℤ) (s : Book) : Book :=
  marketBuyLoopF now (s.asks.length + 1) qty s

/-- The SELL branch loop with its canonical fuel. -/
def marketSellRun (now : ℚ) (qty : ℤ) (s : Book) : Book :=
  marketSellLoopF now (s.bids.length + 1) qty s

/-- `OrderBook._handle_market_order` (`src/order_book.py`, lines 80-113). -/
def handle_market_order (now : ℚ) (s : Book) (o : Order) : Book × Bool :=
  if o.side = "BUY" then
    if s.asks = [] then (s, false)
    else (marketBuyRun now o.quantity s, true)
  else
    if s.bids = [] then (s, false)
    else (marketSellRun now o.quantity s, true)

/-- `OrderBook.add_order` (`src/order_book.py`, lines 66-78): market orders go
to the market handler; limit orders are pushed onto their side, indexed, and
matching runs immediately. -/
def add_order (now : ℚ) (s : Book) (o : Order) : Book × Bool :=
  if o.order_type = "MARKET" then
    handle_market_order now s o
  else if o.side = "BUY" then
    (match_orders now
      { s with bids := List.orderedInsert bidRel o s.bids,
               order_map := (o.order_id, o) :: s.order_map }, true)
  else
    (match_orders now
      { s with asks := List.orderedInsert askRel o s.asks,
               order_map := (o.order_id, o) :: s.order_map }, true)

/-- `OrderBook.add_order_api` (`src/order_book.py`, lines 41-64).  Note the id
counter is incremented before the order is handed to `add_order`, so it
advances even when a market order is rejected. -/
def add_order_api (s : Book) (now : ℚ) (side : String) (price : ℚ) (quantity : ℤ)
    (order_type participant_name : String) : Book × Bool × Option ℕ :=
  let order_id := s.next_order_id
  let s0 : Book := { s with next_order_id := s.next_order_id + 1 }
  let o : Order := ⟨order_id, side, price, quantity, order_type, now, participant_name⟩
  let r := add_order now s0 o
  (r.1, r.2, if r.2 then some order_id else none)

/-- `OrderBook.cancel_order` (`src/order_book.py`, lines 151-167): unknown ids
fail; otherwise the id is dropped from the index and its side is rebuilt
without it (`heapify` of a filtered sorted list is the filtered list). -/
def cancel_order (s : Book) (order_id : ℕ) : Book × Bool :=
  match mapLookup s.order_map order_id with
  | none => (s, false)
  | some o =>
    if o.side = "BUY" then
      ({ s with bids := s.bids.filter fun x => x.order_id ≠ order_id,
                order_map := mapErase s.order_map order_id }, true)
    else
      ({ s with asks := s.asks.filter fun x => x.order_id ≠ order_id,
                order_map := mapErase s.order_map order_id }, true)

/-- Descending lexicographic order on `(price, quantity)` pairs:
`sorted(..., reverse=True)` in `get_order_book`. -/
def bidPairRel (x y : ℚ × ℤ) : Prop := y.1 < x.1 ∨ (x.1 = y.1 ∧ y.2 ≤ x.2)

/-- Ascending lexicographic order on `(price, quantity)` pairs. -/
def askPairRel (x y : ℚ × ℤ) : Prop := x.1 < y.1 ∨ (x.1 = y.1 ∧ x.2 ≤ y.2)

instance : DecidableRel bidPairRel := fun x y =>
  inferInstanceAs (Decidable (y.1 < x.1 ∨ (x.1 = y.1 ∧ y.2 ≤ x.2)))

instance : DecidableRel askPairRel := fun x y =>
  inferInstanceAs (Decidable (x.1 < y.1 ∨ (x.1 = y.1 ∧ x.2 ≤ y.2)))

instance : IsTotal (ℚ × ℤ) bidPairRel := by
  constructor
  intro a b
  rcases lt_trichotomy a.1 b.1 with h | h | h
  · exact Or.inr (Or.inl h)
  · rcases le_total a.2 b.2 with ht | ht
    · exact Or.inr (Or.inr ⟨h.symm, ht⟩)
    · exact Or.inl (Or.inr ⟨h, ht⟩)
  · exact Or.inl (Or.inl h)

instance : IsTrans (ℚ × ℤ) bidPairRel := by
  constructor
  intro a b c hab hbc
  rcases hab with h1 | ⟨h1, t1⟩ <;> rcases hbc with h2 | ⟨h2, t2⟩
  · exact Or.inl (h2.trans h1)
  · exact Or.inl (h2 ▸ h1)
  · exact Or.inl (h1 ▸ h2)
  · exact Or.inr ⟨h1.trans h2, t2.trans t1⟩

instance : IsTotal (ℚ × ℤ) askPairRel := by
  constructor
  intro a b
  rcases lt_trichotomy a.1 b.1 with h | h | h
  · exact Or.inl (Or.inl h)
  · rcases le_total a.2 b.2 with ht | ht
    · exact Or.inl (Or.inr ⟨h, ht⟩)
    · exact Or.inr (Or.inr ⟨h.symm, ht⟩)
  · exact Or.inr (Or.inl h)

instance : IsTrans (ℚ × ℤ) askPairRel := by
  constructor
  intro a b c hab hbc
  rcases hab with h1 | ⟨h1, t1⟩ <;> rcases hbc with h2 | ⟨h2, t2⟩
  · exact Or.inl (h1.trans h2)
  · exact Or.inl (h2 ▸ h1)
  · exact Or.inl (h1 ▸ h2)
  · exact Or.inr ⟨h1.trans h2, t1.trans t2⟩

/-- `OrderBook.get_order_book` (`src/order_book.py`, lines 138-142): one
`(price, quantity)` pair per resting order, bids sorted descending and asks
ascending (Python `sorted` on pairs, which is the lexicographic order). -/
def get_order_book (s : Book) : List (ℚ × ℤ) × List (ℚ × ℤ) :=
  (List.insertionSort bidPairRel (s.bids.map fun o => (o.price, o.quantity)),
   List.insertionSort askPairRel (s.asks.map fun o => (o.price, o.quantity)))

/-- `OrderBook.get_mid_price` (`src/order_book.py`, lines 144-149). -/
def get_mid_price (s : Book) : ℚ :=
  match get_order_book s with
  | (b :: _, a :: _) => (b.1 + a.1) / 2
  | _ => s.last_trade_price

/-- One engine API call: a submission (with its `time.time()` reading) or a
cancellation. -/
inductive Op where
  | submit (now : ℚ) (side : String) (price : ℚ) (quantity : ℤ)
      (order_type participant_name : String)
  | cancel (order_id : ℕ)
deriving DecidableEq, Repr

/-- Apply one API call, keeping the resulting state. -/
def applyOp (s : Book) : Op → Book
  | Op.submit now side price quantity order_type participant_name =>
      (add_order_api s now side price quantity order_type participant_name).1
  | Op.cancel oid => (cancel_order s oid).1

/-- Run a sequence of API calls from a given state. -/
def runFrom (s : Book) (ops : List Op) : Book := ops.foldl applyOp s

/-- Run a sequence of API calls from the freshly constructed book. -/
def runOps (ops : List Op) : Book := runFrom initBook ops

/-- Both heap lists are sorted by their heap priority. -/
def SortedBook (s : Book) : Prop :=
  List.Sorted bidRel s.bids ∧ List.Sorted askRel s.asks

/-- Every resting bid price is strictly below every resting ask price. -/
def NoCross (s : Book) : Prop :=
  ∀ b ∈ s.bids, ∀ a ∈ s.asks, b.price < a.price

/-- Every resting order has strictly positive remaining quantity. -/
def PosQty (s : Book) : Prop :=
  (∀ o ∈ s.bids, 0 < o.quantity) ∧ (∀ o ∈ s.asks, 0 < o.quantity)

/-- The invariant carried through every operation. -/
def Inv (s : Book) : Prop := SortedBook s ∧ NoCross s

/-- An operation submits a positive quantity (cancellations trivially do). -/
def opPos : Op → Prop
  | Op.submit _ _ _ quantity _ _ => 0 < quantity
  | Op.cancel _ => True

/-- Total resting quantity on the bid side. -/
def bidVol (s : Book) : ℤ := (s.bids.map Order.quantity).sum

/-- Total resting quantity on the ask side. -/
def askVol (s : Book) : ℤ := (s.asks.map Order.quantity).sum

/-- Total resting quantity in the book. -/
def restingVol (s : Book) : ℤ := bidVol s + askVol s

/-- Total quantity recorded in the trade log. -/
def tradeVol (s : Book) : ℤ := (s.trades.map Trade.quantity).sum

/-- Limit quantity admitted by one operation (limit orders are always
accepted and join the book). -/
def limitVolOf : Op → ℤ
  | Op.submit _ _ _ quantity order_type _ => if order_type = "MARKET" then 0 else quantity
  | Op.cancel _ => 0

/-- Resting quantity removed by one cancellation. -/
def cancelVolOf (s : Book) : Op → ℤ
  | Op.cancel oid => restingVol s - restingVol (applyOp s (Op.cancel oid))
  | _ => 0

/-- Trade-log quantity produced by one limit submission (its crosses). -/
def crossVolOf (s : Book) : Op → ℤ
  | Op.submit now side price quantity order_type name =>
      if order_type = "MARKET" then 0
      else tradeVol (applyOp s (Op.submit now side price quantity order_type name)) - tradeVol s
  | _ => 0

/-- Trade-log quantity produced by one market submission (its executions). -/
def mktVolOf (s : Book) : Op → ℤ
  | Op.submit now side price quantity order_type name =>
      if order_type = "MARKET" then
        tradeVol (applyOp s (Op.submit now side price quantity order_type name)) - tradeVol s
      else 0
  | _ => 0

/-- Sum a per-operation quantity along a trace. -/
def traceSum (f : Book → Op → ℤ) : Book → List Op → ℤ
  | _, [] => 0
  | s, op :: rest => f s op + traceSum f (applyOp s op) rest

instance (s : Book) : Decidable (SortedBook s) :=
  inferInstanceAs (Decidable (List.Sorted bidRel s.bids ∧ List.Sorted askRel s.asks))

instance (s : Book) : Decidable (NoCross s) :=
  inferInstanceAs (Decidable (∀ b ∈ s.bids, ∀ a ∈ s.asks, b.price < a.price))

instance (s : Book) : Decidable (PosQty s) :=
  inferInstanceAs (Decidable ((∀ o ∈ s.bids, 0 < o.quantity) ∧ (∀ o ∈ s.asks, 0 < o.quantity)))

instance : (op : Op) → Decidable (opPos op)
  | Op.submit _ _ _ quantity _ _ => inferInstanceAs (Decidable (0 < quantity))
  | Op.cancel _ => inferInstanceAs (Decidable True)

/-! ### Basic lemmas about the heap order and the loop bodies -/

lemma bidRel_price {x y : Order} (h : bidRel x y) : y.price ≤ x.price := by
  rcases h with h | ⟨h, _⟩
  · exact h.le
  · exact h.ge

lemma askRel_price {x y : Order} (h : askRel x y) : x.price ≤ y.price := by
  rcases h with h | ⟨h, _⟩
  · exact h.le
  · exact h.le

lemma matchStep_eq (now : ℚ) (s : Book) {b a : Order} {br ar : List Order}
    (hb : s.bids = b :: br) (ha : s.asks = a :: ar) :
    matchStep now s = { s with
      bids := if b.quantity - min b.quantity a.quantity = 0 then br
              else { b with quantity := b.quantity - min b.quantity a.quantity } :: br,
      asks := if a.quantity - min b.quantity a.quantity = 0 then ar
              else { a with quantity := a.quantity - min b.quantity a.quantity } :: ar,
      order_map := mapSetQty (mapSetQty s.order_map b.order_id
                     (b.quantity - min b.quantity a.quantity)) a.order_id
                     (a.quantity - min b.quantity a.quantity),
      trades := s.trades ++ [⟨now, a.price, min b.quantity a.quantity,
                  if a.timestamp < b.timestamp then "BUY" else "SELL"⟩],
      last_trade_price := a.price } := by
  unfold matchStep
  rw [hb, ha]

lemma matchStep_bids_nil {now : ℚ} {s : Book} (hb : s.bids = []) :
    matchStep now s = s := by
  unfold matchStep
  rw [hb]

lemma matchStep_asks_nil {now : ℚ} {s : Book} (ha : s.asks = []) :
    matchStep now s = s := by
  unfold matchStep
  rcases hb : s.bids with _ | ⟨x, xs⟩ <;> rw [ha]

lemma marketBuyStep_eq (now : ℚ) (qty : ℤ) (s : Book) {a : Order} {ar : List Order}
    (ha : s.asks = a :: ar) :
    marketBuyStep now qty s = { s with
      asks := if a.quantity - min qty a.quantity = 0 then ar
              else { a with quantity := a.quantity - min qty a.quantity } :: ar,
      order_map := mapSetQty s.order_map a.order_id (a.quantity - min qty a.quantity),
      trades := s.trades ++ [⟨now, a.price, min qty a.quantity, "BUY"⟩],
      last_trade_price := a.price } := by
  unfold marketBuyStep
  rw [ha]

lemma marketBuyStep_asks_nil {now : ℚ} {qty : ℤ} {s : Book} (ha : s.asks = []) :
    marketBuyStep now qty s = s := by
  unfold marketBuyStep
  rw [ha]

lemma marketBuyTq_eq {qty : ℤ} {s : Book} {a : Order} {ar : List Order}
    (ha : s.asks = a :: ar) : marketBuyTq qty s = min qty a.quantity := by
  unfold marketBuyTq
  rw [ha]

lemma marketSellStep_eq (now : ℚ) (qty : ℤ) (s : Book) {b : Order} {br : List Order}
    (hb : s.bids = b :: br) :
    marketSellStep now qty s = { s with
      bids := if b.quantity - min qty b.quantity = 0 then br
              else { b with quantity := b.quantity - min qty b.quantity } :: br,
      order_map := mapSetQty s.order_map b.order_id (b.quantity - min qty b.quantity),
      trades := s.trades ++ [⟨now, b.price, min qty b.quantity, "SELL"⟩],
      last_trade_price := b.price } := by
  unfold marketSellStep
  rw [hb]

lemma marketSellStep_bids_nil {now : ℚ} {qty : ℤ} {s : Book} (hb : s.bids = []) :
    marketSellStep now qty s = s := by
  unfold marketSellStep
  rw [hb]

lemma marketSellTq_eq {qty : ℤ} {s : Book} {b : Order} {br : List Order}
    (hb : s.bids = b :: br) : marketSellTq qty s = min qty b.quantity := by
  unfold marketSellTq
  rw [hb]

lemma hasCross_eq {s : Book} {b a : Order} {br ar : List Order}
    (hb : s.bids = b :: br) (ha : s.asks = a :: ar) :
    hasCross s = decide (a.price ≤ b.price) := by
  unfold hasCross
  rw [hb, ha]

lemma hasCross_bids_nil {s : Book} (hb : s.bids = []) : hasCross s = false := by
  unfold hasCross
  rw [hb]

lemma hasCross_asks_nil {s : Book} (ha : s.asks = []) : hasCross s = false := by
  unfold hasCross
  rcases hb : s.bids with _ | ⟨x, xs⟩ <;> rw [ha]

lemma hasCross_true_elim {s : Book} (hc : hasCross s = true) :
    ∃ b br a ar, s.bids = b :: br ∧ s.asks = a :: ar ∧ a.price ≤ b.price := by
  rcases hb : s.bids with _ | ⟨b, br⟩
  · rw [hasCross_bids_nil hb] at hc
    exact absurd hc (by simp)
  · rcases ha : s.asks with _ | ⟨a, ar⟩
    · rw [hasCross_asks_nil ha] at hc
      exact absurd hc (by simp)
    · rw [hasCross_eq hb ha] at hc
      exact ⟨b, br, a, ar, rfl, rfl, of_decide_eq_true hc⟩

/-! ### Field-level descriptions of the loop bodies -/

lemma matchStep_bids {now : ℚ} {s : Book} {b a : Order} {br ar : List Order}
    (hb : s.bids = b :: br) (ha : s.asks = a :: ar) :
    (matchStep now s).bids = if b.quantity - min b.quantity a.quantity = 0 then br
      else { b with quantity := b.quantity - min b.quantity a.quantity } :: br := by
  rw [matchStep_eq now s hb ha]

lemma matchStep_asks {now : ℚ} {s : Book} {b a : Order} {br ar : List Order}
    (hb : s.bids = b :: br) (ha : s.asks = a :: ar) :
    (matchStep now s).asks = if a.quantity - min b.quantity a.quantity = 0 then ar
      else { a with quantity := a.quantity - min b.quantity a.quantity } :: ar := by
  rw [matchStep_eq now s hb ha]

lemma matchStep_trades {now : ℚ} {s : Book} {b a : Order} {br ar : List Order}
    (hb : s.bids = b :: br) (ha : s.asks = a :: ar) :
    (matchStep now s).trades = s.trades ++ [⟨now, a.price, min b.quantity a.quantity,
      if a.timestamp < b.timestamp then "BUY" else "SELL"⟩] := by
  rw [matchStep_eq now s hb ha]

lemma matchStep_ltp {now : ℚ} {s : Book} {b a : Order} {br ar : List Order}
    (hb : s.bids = b :: br) (ha : s.asks = a :: ar) :
    (matchStep now s).last_trade_price = a.price := by
  rw [matchStep_eq now s hb ha]

lemma marketBuyStep_bids (now : ℚ) (qty : ℤ) (s : Book) :
    (marketBuyStep now qty s).bids = s.bids := by
  rcases ha : s.asks with _ | ⟨a, ar⟩
  · rw [marketBuyStep_asks_nil ha]
  · rw [marketBuyStep_eq now qty s ha]

lemma marketBuyStep_asks {now : ℚ} {qty : ℤ} {s : Book} {a : Order} {ar : List Order}
    (ha : s.asks = a :: ar) :
    (marketBuyStep now qty s).asks = if a.quantity - min qty a.quantity = 0 then ar
      else { a with quantity := a.quantity - min qty a.quantity } :: ar := by
  rw [marketBuyStep_eq now qty s ha]

lemma marketBuyStep_trades {now : ℚ} {qty : ℤ} {s : Book} {a : Order} {ar : List Order}
    (ha : s.asks = a :: ar) :
    (marketBuyStep now qty s).trades = s.trades ++ [⟨now, a.price, min qty a.quantity, "BUY"⟩] := by
  rw [marketBuyStep_eq now qty s ha]

lemma marketBuyStep_ltp {now : ℚ} {qty : ℤ} {s : Book} {a : Order} {ar : List Order}
    (ha : s.asks = a :: ar) :
    (marketBuyStep now qty s).last_trade_price = a.price := by
  rw [marketBuyStep_eq now qty s ha]

lemma marketSellStep_asks (now : ℚ) (qty : ℤ) (s : Book) :
    (marketSellStep now qty s).asks = s.asks := by
  rcases hb : s.bids with _ | ⟨b, br⟩
  · rw [marketSellStep_bids_nil hb]
  · rw [marketSellStep_eq now qty s hb]

lemma marketSellStep_bids {now : ℚ} {qty : ℤ} {s : Book} {b : Order} {br : List Order}
    (hb : s.bids = b :: br) :
    (marketSellStep now qty s).bids = if b.quantity - min qty b.quantity = 0 then br
      else { b with quantity := b.quantity - min qty b.quantity } :: br := by
  rw [marketSellStep_eq now qty s hb]

lemma marketSellStep_trades {now : ℚ} {qty : ℤ} {s : Book} {b : Order} {br : List Order}
    (hb : s.bids = b :: br) :
    (marketSellStep now qty s).trades = s.trades ++ [⟨now, b.price, min qty b.quantity, "SELL"⟩] := by
  rw [marketSellStep_eq now qty s hb]

lemma marketSellStep_ltp {now : ℚ} {qty : ℤ} {s : Book} {b : Order} {br : List Order}
    (hb : s.bids = b :: br) :
    (marketSellStep now qty s).last_trade_price = b.price := by
  rw [marketSellStep_eq now qty s hb]

/-! ### Sortedness, positivity and size through the loop bodies -/

lemma sorted_cons_qty_bid {b : Order} {l : List Order} (q : ℤ)
    (h : List.Sorted bidRel (b :: l)) :
    List.Sorted bidRel ({ b with quantity := q } :: l) := by
  rw [List.sorted_cons] at h ⊢
  exact ⟨fun x hx => h.1 x hx, h.2⟩

lemma sorted_cons_qty_ask {a : Order} {l : List Order} (q : ℤ)
    (h : List.Sorted askRel (a :: l)) :
    List.Sorted askRel ({ a with quantity := q } :: l) := by
  rw [List.sorted_cons] at h ⊢
  exact ⟨fun x hx => h.1 x hx, h.2⟩

lemma matchStep_sorted {now : ℚ} {s : Book} (h : SortedBook s) :
    SortedBook (matchStep now s) := by
  rcases hb : s.bids with _ | ⟨b, br⟩
  · rw [matchStep_bids_nil hb]
    exact h
  · rcases ha : s.asks with _ | ⟨a, ar⟩
    · rw [matchStep_asks_nil ha]
      exact h
    · refine ⟨?_, ?_⟩
      · rw [matchStep_bids hb ha]
        split_ifs
        · exact (List.sorted_cons.mp (hb ▸ h.1)).2
        · exact sorted_cons_qty_bid _ (hb ▸ h.1)
      · rw [matchStep_asks hb ha]
        split_ifs
        · exact (List.sorted_cons.mp (ha ▸ h.2)).2
        · exact sorted_cons_qty_ask _ (ha ▸ h.2)

lemma matchStep_pos {now : ℚ} {s : Book} (h : PosQty s) :
    PosQty (matchStep now s) := by
  rcases hb : s.bids with _ | ⟨b, br⟩
  · rw [matchStep_bids_nil hb]
    exact h
  · rcases ha : s.asks with _ | ⟨a, ar⟩
    · rw [matchStep_asks_nil ha]
      exact h
    · have hbq : min b.quantity a.quantity ≤ b.quantity := min_le_left _ _
      have haq : min b.quantity a.quantity ≤ a.quantity := min_le_right _ _
      refine ⟨?_, ?_⟩
      · rw [matchStep_bids hb ha]
        intro o ho
        split_ifs at ho with hz
        · exact h.1 o (hb ▸ List.mem_cons_of_mem _ ho)
        · rcases List.mem_cons.mp ho with rfl | ho
          · show 0 < b.quantity - min b.quantity a.quantity
            omega
          · exact h.1 o (hb ▸ List.mem_cons_of_mem _ ho)
      · rw [matchStep_asks hb ha]
        intro o ho
        split_ifs at ho with hz
        · exact h.2 o (ha ▸ List.mem_cons_of_mem _ ho)
        · rcases List.mem_cons.mp ho with rfl | ho
          · show 0 < a.quantity - min b.quantity a.quantity
            omega
          · exact h.2 o (ha ▸ List.mem_cons_of_mem _ ho)

lemma matchStep_len {now : ℚ} {s : Book} (hc : hasCross s = true) :
    (matchStep now s).bids.length + (matchStep now s).asks.length + 1 ≤
      s.bids.length + s.asks.length := by
  obtain ⟨b, br, a, ar, hb, ha, _⟩ := hasCross_true_elim hc
  have hbl : (matchStep now s).bids.length ≤ br.length + 1 := by
    rw [matchStep_bids hb ha]
    split_ifs <;> simp
  have hal : (matchStep now s).asks.length ≤ ar.length + 1 := by
    rw [matchStep_asks hb ha]
    split_ifs <;> simp
  rcases min_choice b.quantity a.quantity with h | h
  · have hbl2 : (matchStep now s).bids.length = br.length := by
      rw [matchStep_bids hb ha, h]
      simp
    rw [hb, ha, hbl2]
    simp only [List.length_cons]
    omega
  · have hal2 : (matchStep now s).asks.length = ar.length := by
      rw [matchStep_asks hb ha, h]
      simp
    rw [hb, ha, hal2]
    simp only [List.length_cons]
    omega

/-! ### Record-projection helpers -/

lemma qty_set (b : Order) (q : ℤ) : ({ b with quantity := q } : Order).quantity = q := rfl

lemma price_set (b : Order) (q : ℤ) : ({ b with quantity := q } : Order).price = b.price := rfl

/-! ### The matching loop -/

lemma matchLoopF_succ (now : ℚ) (fuel : ℕ) (s : Book) :
    matchLoopF now (fuel + 1) s =
      if hasCross s then matchLoopF now fuel (matchStep now s) else s := rfl

lemma matchLoopF_sorted (now : ℚ) :
    ∀ (fuel : ℕ) (s : Book), SortedBook s → SortedBook (matchLoopF now fuel s) := by
  intro fuel
  induction fuel with
  | zero => exact fun s h => h
  | succ f ih =>
    intro s h
    rw [matchLoopF_succ]
    cases hc : hasCross s
    · simp only [hc, Bool.false_eq_true, if_false]
      exact h
    · simp only [hc, if_true]
      exact ih _ (matchStep_sorted h)

lemma matchLoopF_pos (now : ℚ) :
    ∀ (fuel : ℕ) (s : Book), PosQty s → PosQty (matchLoopF now fuel s) := by
  intro fuel
  induction fuel with
  | zero => exact fun s h => h
  | succ f ih =>
    intro s h
    rw [matchLoopF_succ]
    cases hc : hasCross s
    · simp only [hc, Bool.false_eq_true, if_false]
      exact h
    · simp only [hc, if_true]
      exact ih _ (matchStep_pos h)

lemma noCross_of_hasCross_false {s : Book} (hs : SortedBook s) (hc : hasCross s = false) :
    NoCross s := by
  intro b hbm a ham
  rcases hb : s.bids with _ | ⟨b0, br⟩
  · rw [hb] at hbm
    exact absurd hbm (List.not_mem_nil b)
  · rcases ha : s.asks with _ | ⟨a0, ar⟩
    · rw [ha] at ham
      exact absurd ham (List.not_mem_nil a)
    · have hlt : b0.price < a0.price := by
        have := hasCross_eq hb ha
        rw [hc] at this
        exact lt_of_not_le (of_decide_eq_false this.symm)
      have hble : b.price ≤ b0.price := by
        rw [hb] at hbm
        rcases List.mem_cons.mp hbm with rfl | hm
        · exact le_refl _
        · exact bidRel_price (List.rel_of_sorted_cons (hb ▸ hs.1) b hm)
      have hage : a0.price ≤ a.price := by
        rw [ha] at ham
        rcases List.mem_cons.mp ham with rfl | hm
        · exact le_refl _
        · exact askRel_price (List.rel_of_sorted_cons (ha ▸ hs.2) a hm)
      exact lt_of_le_of_lt hble (lt_of_lt_of_le hlt hage)

lemma matchLoopF_hasCross_false {now : ℚ} {s : Book} (hc : hasCross s = false) :
    ∀ fuel, matchLoopF now fuel s = s := by
  intro fuel
  cases fuel
  · rfl
  · rw [matchLoopF_succ]
    simp [hc]

lemma matchLoopF_noCross (now : ℚ) :
    ∀ (fuel : ℕ) (s : Book), s.bids.length + s.asks.length ≤ fuel → SortedBook s →
      NoCross (matchLoopF now fuel s) := by
  intro fuel
  induction fuel with
  | zero =>
    intro s hlen hs
    have hb : s.bids = [] := List.length_eq_zero.mp (by omega)
    rw [show matchLoopF now 0 s = s from rfl]
    intro b hbm
    rw [hb] at hbm
    exact absurd hbm (List.not_mem_nil b)
  | succ f ih =>
    intro s hlen hs
    rw [matchLoopF_succ]
    cases hc : hasCross s
    · simp only [hc, Bool.false_eq_true, if_false]
      exact noCross_of_hasCross_false hs hc
    · simp only [hc, if_true]
      have := @matchStep_len now s hc
      exact ih _ (by omega) (matchStep_sorted hs)

lemma matchLoopF_congr (now : ℚ) :
    ∀ (f1 f2 : ℕ) (s : Book), s.bids.length + s.asks.length ≤ f1 →
      s.bids.length + s.asks.length ≤ f2 →
      matchLoopF now f1 s = matchLoopF now f2 s := by
  intro f1
  induction f1 with
  | zero =>
    intro f2 s hlen1 _
    have hb : s.bids = [] := List.length_eq_zero.mp (by omega)
    simp only [matchLoopF_hasCross_false (hasCross_bids_nil hb)]
  | succ f ih =>
    intro f2 s hlen1 hlen2
    cases hc : hasCross s
    · rw [matchLoopF_hasCross_false hc, matchLoopF_hasCross_false hc]
    · have hstep := @matchStep_len now s hc
      obtain ⟨b, br, a, ar, hb, ha, _⟩ := hasCross_true_elim hc
      cases f2 with
      | zero =>
        rw [hb, ha] at hlen2
        simp [List.length_cons] at hlen2
      | succ f2 =>
        rw [matchLoopF_succ, matchLoopF_succ]
        simp only [hc, if_true]
        exact ih f2 _ (by omega) (by omega)

/-- `match_orders` runs its loop to completion: any sufficient fuel computes
the same result as the canonical fuel. -/
lemma matchLoopF_run {now : ℚ} {s : Book} {fuel : ℕ}
    (h : s.bids.length + s.asks.length ≤ fuel) :
    matchLoopF now fuel s = match_orders now s :=
  matchLoopF_congr now fuel (s.bids.length + s.asks.length) s h (le_refl _)

lemma match_orders_sorted {now : ℚ} {s : Book} (h : SortedBook s) :
    SortedBook (match_orders now s) :=
  matchLoopF_sorted now _ s h

lemma match_orders_pos {now : ℚ} {s : Book} (h : PosQty s) :
    PosQty (match_orders now s) :=
  matchLoopF_pos now _ s h

lemma match_orders_noCross {now : ℚ} {s : Book} (h : SortedBook s) :
    NoCross (match_orders now s) :=
  matchLoopF_noCross now _ s (le_refl _) h

/-! ### The market-order loops -/

lemma marketBuyLoopF_succ (now : ℚ) (fuel : ℕ) (qty : ℤ) (s : Book) :
    marketBuyLoopF now (fuel + 1) qty s =
      if 0 < qty ∧ s.asks ≠ [] then
        marketBuyLoopF now fuel (qty - marketBuyTq qty s) (marketBuyStep now qty s)
      else s := rfl

lemma marketSellLoopF_succ (now : ℚ) (fuel : ℕ) (qty : ℤ) (s : Book) :
    marketSellLoopF now (fuel + 1) qty s =
      if 0 < qty ∧ s.bids ≠ [] then
        marketSellLoopF now fuel (qty - marketSellTq qty s) (marketSellStep now qty s)
      else s := rfl

lemma marketBuyLoopF_not_pos {now : ℚ} {qty : ℤ} {s : Book} (hq : ¬ 0 < qty) :
    ∀ fuel, marketBuyLoopF now fuel qty s = s := by
  intro fuel
  cases fuel
  · rfl
  · rw [marketBuyLoopF_succ, if_neg]
    rintro ⟨h1, _⟩
    exact hq h1

lemma marketSellLoopF_not_pos {now : ℚ} {qty : ℤ} {s : Book} (hq : ¬ 0 < qty) :
    ∀ fuel, marketSellLoopF now fuel qty s = s := by
  intro fuel
  cases fuel
  · rfl
  · rw [marketSellLoopF_succ, if_neg]
    rintro ⟨h1, _⟩
    exact hq h1

lemma marketBuyLoopF_bids (now : ℚ) :
    ∀ (fuel : ℕ) (qty : ℤ) (s : Book), (marketBuyLoopF now fuel qty s).bids = s.bids := by
  intro fuel
  induction fuel with
  | zero => exact fun _ _ => rfl
  | succ f ih =>
    intro qty s
    rw [marketBuyLoopF_succ]
    split_ifs
    · rw [ih, marketBuyStep_bids]
    · rfl

lemma marketSellLoopF_asks (now : ℚ) :
    ∀ (fuel : ℕ) (qty : ℤ) (s : Book), (marketSellLoopF now fuel qty s).asks = s.asks := by
  intro fuel
  induction fuel with
  | zero => exact fun _ _ => rfl
  | succ f ih =>
    intro qty s
    rw [marketSellLoopF_succ]
    split_ifs
    · rw [ih, marketSellStep_asks]
    · rfl

lemma marketBuyStep_asks_sorted {now : ℚ} {qty : ℤ} {s : Book}
    (h : List.Sorted askRel s.asks) :
    List.Sorted askRel (marketBuyStep now qty s).asks := by
  rcases ha : s.asks with _ | ⟨a, ar⟩
  · rw [marketBuyStep_asks_nil ha]
    exact ha ▸ h
  · rw [marketBuyStep_asks ha]
    split_ifs
    · exact (List.sorted_cons.mp (ha ▸ h)).2
    · exact sorted_cons_qty_ask _ (ha ▸ h)

lemma marketSellStep_bids_sorted {now : ℚ} {qty : ℤ} {s : Book}
    (h : List.Sorted bidRel s.bids) :
    List.Sorted bidRel (marketSellStep now qty s).bids := by
  rcases hb : s.bids with _ | ⟨b, br⟩
  · rw [marketSellStep_bids_nil hb]
    exact hb ▸ h
  · rw [marketSellStep_bids hb]
    split_ifs
    · exact (List.sorted_cons.mp (hb ▸ h)).2
    · exact sorted_cons_qty_bid _ (hb ▸ h)

lemma marketBuyStep_asks_pred {now : ℚ} {qty : ℤ} {s : Book} {P : ℚ → Prop}
    (h : ∀ o ∈ s.asks, P o.price) :
    ∀ o ∈ (marketBuyStep now qty s).asks, P o.price := by
  rcases ha : s.asks with _ | ⟨a, ar⟩
  · rw [marketBuyStep_asks_nil ha, ha]
    exact fun o ho => absurd ho (List.not_mem_nil o)
  · rw [marketBuyStep_asks ha]
    intro o ho
    split_ifs at ho
    · exact h o (ha ▸ List.mem_cons_of_mem _ ho)
    · rcases List.mem_cons.mp ho with rfl | ho
      · exact price_set a _ ▸ h a (ha ▸ List.mem_cons_self a ar)
      · exact h o (ha ▸ List.mem_cons_of_mem _ ho)

lemma marketSellStep_bids_pred {now : ℚ} {qty : ℤ} {s : Book} {P : ℚ → Prop}
    (h : ∀ o ∈ s.bids, P o.price) :
    ∀ o ∈ (marketSellStep now qty s).bids, P o.price := by
  rcases hb : s.bids with _ | ⟨b, br⟩
  · rw [marketSellStep_bids_nil hb, hb]
    exact fun o ho => absurd ho (List.not_mem_nil o)
  · rw [marketSellStep_bids hb]
    intro o ho
    split_ifs at ho
    · exact h o (hb ▸ List.mem_cons_of_mem _ ho)
    · rcases List.mem_cons.mp ho with rfl | ho
      · exact price_set b _ ▸ h b (hb ▸ List.mem_cons_self b br)
      · exact h o (hb ▸ List.mem_cons_of_mem _ ho)

lemma marketBuyStep_asks_pos {now : ℚ} {qty : ℤ} {s : Book}
    (h : ∀ o ∈ s.asks, 0 < o.quantity) :
    ∀ o ∈ (marketBuyStep now qty s).asks, 0 < o.quantity := by
  rcases ha : s.asks with _ | ⟨a, ar⟩
  · rw [marketBuyStep_asks_nil ha, ha]
    exact fun o ho => absurd ho (List.not_mem_nil o)
  · rw [marketBuyStep_asks ha]
    intro o ho
    have hle : min qty a.quantity ≤ a.quantity := min_le_right _ _
    split_ifs at ho with hz
    · exact h o (ha ▸ List.mem_cons_of_mem _ ho)
    · rcases List.mem_cons.mp ho with rfl | ho
      · rw [qty_set]
        omega
      · exact h o (ha ▸ List.mem_cons_of_mem _ ho)

lemma marketSellStep_bids_pos {now : ℚ} {qty : ℤ} {s : Book}
    (h : ∀ o ∈ s.bids, 0 < o.quantity) :
    ∀ o ∈ (marketSellStep now qty s).bids, 0 < o.quantity := by
  rcases hb : s.bids with _ | ⟨b, br⟩
  · rw [marketSellStep_bids_nil hb, hb]
    exact fun o ho => absurd ho (List.not_mem_nil o)
  · rw [marketSellStep_bids hb]
    intro o ho
    have hle : min qty b.quantity ≤ b.quantity := min_le_right _ _
    split_ifs at ho with hz
    · exact h o (hb ▸ List.mem_cons_of_mem _ ho)
    · rcases List.mem_cons.mp ho with rfl | ho
      · rw [qty_set]
        omega
      · exact h o (hb ▸ List.mem_cons_of_mem _ ho)

lemma marketBuyLoopF_asks_sorted (now : ℚ) :
    ∀ (fuel : ℕ) (qty : ℤ) (s : Book), List.Sorted askRel s.asks →
      List.Sorted askRel (marketBuyLoopF now fuel qty s).asks := by
  intro fuel
  induction fuel with
  | zero => exact fun _ _ h => h
  | succ f ih =>
    intro qty s h
    rw [marketBuyLoopF_succ]
    split_ifs
    · exact ih _ _ (marketBuyStep_asks_sorted h)
    · exact h

lemma marketSellLoopF_bids_sorted (now : ℚ) :
    ∀ (fuel : ℕ) (qty : ℤ) (s : Book), List.Sorted bidRel s.bids →
      List.Sorted bidRel (marketSellLoopF now fuel qty s).bids := by
  intro fuel
  induction fuel with
  | zero => exact fun _ _ h => h
  | succ f ih =>
    intro qty s h
    rw [marketSellLoopF_succ]
    split_ifs
    · exact ih _ _ (marketSellStep_bids_sorted h)
    · exact h

lemma marketBuyLoopF_asks_pred (now : ℚ) {P : ℚ → Prop} :
    ∀ (fuel : ℕ) (qty : ℤ) (s : Book), (∀ o ∈ s.asks, P o.price) →
      ∀ o ∈ (marketBuyLoopF now fuel qty s).asks, P o.price := by
  intro fuel
  induction fuel with
  | zero => exact fun _ _ h => h
  | succ f ih =>
    intro qty s h
    rw [marketBuyLoopF_succ]
    split_ifs
    · exact ih _ _ (marketBuyStep_asks_pred h)
    · exact h

lemma marketSellLoopF_bids_pred (now : ℚ) {P : ℚ → Prop} :
    ∀ (fuel : ℕ) (qty : ℤ) (s : Book), (∀ o ∈ s.bids, P o.price) →
      ∀ o ∈ (marketSellLoopF now fuel qty s).bids, P o.price := by
  intro fuel
  induction fuel with
  | zero => exact fun _ _ h => h
  | succ f ih =>
    intro qty s h
    rw [marketSellLoopF_succ]
    split_ifs
    · exact ih _ _ (marketSellStep_bids_pred h)
    · exact h

lemma marketBuyLoopF_asks_pos (now : ℚ) :
    ∀ (fuel : ℕ) (qty : ℤ) (s : Book), (∀ o ∈ s.asks, 0 < o.quantity) →
      ∀ o ∈ (marketBuyLoopF now fuel qty s).asks, 0 < o.quantity := by
  intro fuel
  induction fuel with
  | zero => exact fun _ _ h => h
  | succ f ih =>
    intro qty s h
    rw [marketBuyLoopF_succ]
    split_ifs
    · exact ih _ _ (marketBuyStep_asks_pos h)
    · exact h

lemma marketSellLoopF_bids_pos (now : ℚ) :
    ∀ (fuel : ℕ) (qty : ℤ) (s : Book), (∀ o ∈ s.bids, 0 < o.quantity) →
      ∀ o ∈ (marketSellLoopF now fuel qty s).bids, 0 < o.quantity := by
  intro fuel
  induction fuel with
  | zero => exact fun _ _ h => h
  | succ f ih =>
    intro qty s h
    rw [marketSellLoopF_succ]
    split_ifs
    · exact ih _ _ (marketSellStep_bids_pos h)
    · exact h

/-- The BUY-branch run preserves the whole invariant. -/
lemma marketBuyRun_inv {now : ℚ} {qty : ℤ} {s : Book} (h : Inv s) :
    Inv (marketBuyRun now qty s) := by
  refine ⟨⟨?_, ?_⟩, ?_⟩
  · rw [marketBuyRun, marketBuyLoopF_bids]
    exact h.1.1
  · exact marketBuyLoopF_asks_sorted now _ _ _ h.1.2
  · intro b hbm a ham
    rw [marketBuyRun, marketBuyLoopF_bids] at hbm
    exact marketBuyLoopF_asks_pred now _ _ _ (h.2 b hbm) a ham

/-- The SELL-branch run preserves the whole invariant. -/
lemma marketSellRun_inv {now : ℚ} {qty : ℤ} {s : Book} (h : Inv s) :
    Inv (marketSellRun now qty s) := by
  refine ⟨⟨?_, ?_⟩, ?_⟩
  · exact marketSellLoopF_bids_sorted now _ _ _ h.1.1
  · rw [marketSellRun, marketSellLoopF_asks]
    exact h.1.2
  · intro b hbm a ham
    rw [marketSellRun, marketSellLoopF_asks] at ham
    refine @marketSellLoopF_bids_pred now (fun p => p < a.price) _ _ _ ?_ b hbm
    exact fun o ho => h.2 o ho a ham

/-! ### Fuel congruence for the market loops -/

lemma marketBuyLoopF_congr (now : ℚ) :
    ∀ (f1 f2 : ℕ) (qty : ℤ) (s : Book), s.asks.length + 1 ≤ f1 → s.asks.length + 1 ≤ f2 →
      marketBuyLoopF now f1 qty s = marketBuyLoopF now f2 qty s := by
  intro f1
  induction f1 with
  | zero =>
    intro f2 qty s hlen1 _
    omega
  | succ f1 ih =>
    intro f2 qty s hlen1 hlen2
    cases f2 with
    | zero => omega
    | succ f2 =>
      by_cases hg : 0 < qty ∧ s.asks ≠ []
      · rw [marketBuyLoopF_succ, marketBuyLoopF_succ, if_pos hg, if_pos hg]
        rcases ha : s.asks with _ | ⟨a, ar⟩
        · exact absurd ha hg.2
        · by_cases hz : a.quantity - min qty a.quantity = 0
          · have hstep : (marketBuyStep now qty s).asks = ar := by
              rw [marketBuyStep_asks ha, if_pos hz]
            rw [ha] at hlen1 hlen2
            simp only [List.length_cons] at hlen1 hlen2
            exact ih f2 _ _ (by rw [hstep]; omega) (by rw [hstep]; omega)
          · have hmin : min qty a.quantity = qty := by
              rcases min_choice qty a.quantity with h | h
              · exact h
              · omega
            have hq0 : qty - marketBuyTq qty s = 0 := by
              rw [marketBuyTq_eq ha, hmin]
              omega
            rw [marketBuyLoopF_not_pos (by omega), marketBuyLoopF_not_pos (by omega)]
      · rw [marketBuyLoopF_succ, marketBuyLoopF_succ, if_neg hg, if_neg hg]

lemma marketSellLoopF_congr (now : ℚ) :
    ∀ (f1 f2 : ℕ) (qty : ℤ) (s : Book), s.bids.length + 1 ≤ f1 → s.bids.length + 1 ≤ f2 →
      marketSellLoopF now f1 qty s = marketSellLoopF now f2 qty s := by
  intro f1
  induction f1 with
  | zero =>
    intro f2 qty s hlen1 _
    omega
  | succ f1 ih =>
    intro f2 qty s hlen1 hlen2
    cases f2 with
    | zero => omega
    | succ f2 =>
      by_cases hg : 0 < qty ∧ s.bids ≠ []
      · rw [marketSellLoopF_succ, marketSellLoopF_succ, if_pos hg, if_pos hg]
        rcases hb : s.bids with _ | ⟨b, br⟩
        · exact absurd hb hg.2
        · by_cases hz : b.quantity - min qty b.quantity = 0
          · have hstep : (marketSellStep now qty s).bids = br := by
              rw [marketSellStep_bids hb, if_pos hz]
            rw [hb] at hlen1 hlen2
            simp only [List.length_cons] at hlen1 hlen2
            exact ih f2 _ _ (by rw [hstep]; omega) (by rw [hstep]; omega)
          · have hmin : min qty b.quantity = qty := by
              rcases min_choice qty b.quantity with h | h
              · exact h
              · omega
            have hq0 : qty - marketSellTq qty s = 0 := by
              rw [marketSellTq_eq hb, hmin]
              omega
            rw [marketSellLoopF_not_pos (by omega), marketSellLoopF_not_pos (by omega)]
      · rw [marketSellLoopF_succ, marketSellLoopF_succ, if_neg hg, if_neg hg]

/-- Any sufficient fuel computes the canonical BUY-branch run. -/
lemma marketBuyLoopF_run {now : ℚ} {qty : ℤ} {s : Book} {fuel : ℕ}
    (h : s.asks.length + 1 ≤ fuel) :
    marketBuyLoopF now fuel qty s = marketBuyRun now qty s :=
  marketBuyLoopF_congr now fuel (s.asks.length + 1) qty s h (le_refl _)

/-- Any sufficient fuel computes the canonical SELL-branch run. -/
lemma marketSellLoopF_run {now : ℚ} {qty : ℤ} {s : Book} {fuel : ℕ}
    (h : s.bids.length + 1 ≤ fuel) :
    marketSellLoopF now fuel qty s = marketSellRun now qty s :=
  marketSellLoopF_congr now fuel (s.bids.length + 1) qty s h (le_refl _)

/-! ### Volume accounting through steps and loops -/

lemma matchStep_bidVol {now : ℚ} {s : Book} {b a : Order} {br ar : List Order}
    (hb : s.bids = b :: br) (ha : s.asks = a :: ar) :
    bidVol (matchStep now s) = bidVol s - min b.quantity a.quantity := by
  unfold bidVol
  rw [matchStep_bids hb ha, hb]
  split_ifs with hz
  · simp only [List.map_cons, List.sum_cons]
    omega
  · simp only [List.map_cons, List.sum_cons, qty_set]
    omega

lemma matchStep_askVol {now : ℚ} {s : Book} {b a : Order} {br ar : List Order}
    (hb : s.bids = b :: br) (ha : s.asks = a :: ar) :
    askVol (matchStep now s) = askVol s - min b.quantity a.quantity := by
  unfold askVol
  rw [matchStep_asks hb ha, ha]
  split_ifs with hz
  · simp only [List.map_cons, List.sum_cons]
    omega
  · simp only [List.map_cons, List.sum_cons, qty_set]
    omega

lemma matchStep_tradeVol {now : ℚ} {s : Book} {b a : Order} {br ar : List Order}
    (hb : s.bids = b :: br) (ha : s.asks = a :: ar) :
    tradeVol (matchStep now s) = tradeVol s + min b.quantity a.quantity := by
  unfold tradeVol
  rw [matchStep_trades hb ha]
  simp

lemma matchLoopF_conserv (now : ℚ) :
    ∀ (fuel : ℕ) (s : Book),
      restingVol (matchLoopF now fuel s) + 2 * tradeVol (matchLoopF now fuel s) =
        restingVol s + 2 * tradeVol s := by
  intro fuel
  induction fuel with
  | zero => exact fun _ => rfl
  | succ f ih =>
    intro s
    rw [matchLoopF_succ]
    cases hc : hasCross s
    · simp only [Bool.false_eq_true, if_false]
    · simp only [if_true]
      obtain ⟨b, br, a, ar, hb, ha, _⟩ := hasCross_true_elim hc
      have h1 := @matchStep_bidVol now s b a br ar hb ha
      have h2 := @matchStep_askVol now s b a br ar hb ha
      have h3 := @matchStep_tradeVol now s b a br ar hb ha
      have h4 := ih (matchStep now s)
      unfold restingVol at h4 ⊢
      omega

lemma marketBuyStep_askVol {now : ℚ} {qty : ℤ} {s : Book} {a : Order} {ar : List Order}
    (ha : s.asks = a :: ar) :
    askVol (marketBuyStep now qty s) = askVol s - min qty a.quantity := by
  unfold askVol
  rw [marketBuyStep_asks ha, ha]
  split_ifs with hz
  · simp only [List.map_cons, List.sum_cons]
    omega
  · simp only [List.map_cons, List.sum_cons, qty_set]
    omega

lemma marketBuyStep_tradeVol {now : ℚ} {qty : ℤ} {s : Book} {a : Order} {ar : List Order}
    (ha : s.asks = a :: ar) :
    tradeVol (marketBuyStep now qty s) = tradeVol s + min qty a.quantity := by
  unfold tradeVol
  rw [marketBuyStep_trades ha]
  simp

lemma marketSellStep_bidVol {now : ℚ} {qty : ℤ} {s : Book} {b : Order} {br : List Order}
    (hb : s.bids = b :: br) :
    bidVol (marketSellStep now qty s) = bidVol s - min qty b.quantity := by
  unfold bidVol
  rw [marketSellStep_bids hb, hb]
  split_ifs with hz
  · simp only [List.map_cons, List.sum_cons]
    omega
  · simp only [List.map_cons, List.sum_cons, qty_set]
    omega

lemma marketSellStep_tradeVol {now : ℚ} {qty : ℤ} {s : Book} {b : Order} {br : List Order}
    (hb : s.bids = b :: br) :
    tradeVol (marketSellStep now qty s) = tradeVol s + min qty b.quantity := by
  unfold tradeVol
  rw [marketSellStep_trades hb]
  simp

lemma marketBuyLoopF_conserv (now : ℚ) :
    ∀ (fuel : ℕ) (qty : ℤ) (s : Book),
      restingVol (marketBuyLoopF now fuel qty s) + tradeVol (marketBuyLoopF now fuel qty s) =
        restingVol s + tradeVol s := by
  intro fuel
  induction fuel with
  | zero => exact fun _ _ => rfl
  | succ f ih =>
    intro qty s
    rw [marketBuyLoopF_succ]
    split_ifs with hg
    · rcases ha : s.asks with _ | ⟨a, ar⟩
      · exact absurd ha hg.2
      · have h1 := @marketBuyStep_askVol now qty s a ar ha
        have h2 := @marketBuyStep_tradeVol now qty s a ar ha
        have h3 : bidVol (marketBuyStep now qty s) = bidVol s := by
          unfold bidVol
          rw [marketBuyStep_bids]
        have h4 := ih (qty - marketBuyTq qty s) (marketBuyStep now qty s)
        unfold restingVol at h4 ⊢
        omega
    · rfl

lemma marketSellLoopF_conserv (now : ℚ) :
    ∀ (fuel : ℕ) (qty : ℤ) (s : Book),
      restingVol (marketSellLoopF now fuel qty s) + tradeVol (marketSellLoopF now fuel qty s) =
        restingVol s + tradeVol s := by
  intro fuel
  induction fuel with
  | zero => exact fun _ _ => rfl
  | succ f ih =>
    intro qty s
    rw [marketSellLoopF_succ]
    split_ifs with hg
    · rcases hb : s.bids with _ | ⟨b, br⟩
      · exact absurd hb hg.2
      · have h1 := @marketSellStep_bidVol now qty s b br hb
        have h2 := @marketSellStep_tradeVol now qty s b br hb
        have h3 : askVol (marketSellStep now qty s) = askVol s := by
          unfold askVol
          rw [marketSellStep_asks]
        have h4 := ih (qty - marketSellTq qty s) (marketSellStep now qty s)
        unfold restingVol at h4 ⊢
        omega
    · rfl

/-! ### Invariant preservation across whole operations -/

lemma marketBuyRun_pos {now : ℚ} {qty : ℤ} {s : Book} (h : PosQty s) :
    PosQty (marketBuyRun now qty s) := by
  refine ⟨?_, ?_⟩
  · rw [marketBuyRun, marketBuyLoopF_bids]
    exact h.1
  · exact marketBuyLoopF_asks_pos now _ _ _ h.2

lemma marketSellRun_pos {now : ℚ} {qty : ℤ} {s : Book} (h : PosQty s) :
    PosQty (marketSellRun now qty s) := by
  refine ⟨?_, ?_⟩
  · exact marketSellLoopF_bids_pos now _ _ _ h.1
  · rw [marketSellRun, marketSellLoopF_asks]
    exact h.2

lemma add_order_inv {now : ℚ} {s : Book} {o : Order} (h : Inv s) :
    Inv (add_order now s o).1 := by
  unfold add_order handle_market_order
  split_ifs with ht hside hae hbe hside2
  · exact h
  · exact marketBuyRun_inv h
  · exact h
  · exact marketSellRun_inv h
  · have hb1 : List.Sorted bidRel (List.orderedInsert bidRel o s.bids) :=
      List.Sorted.orderedInsert o s.bids h.1.1
    exact ⟨match_orders_sorted ⟨hb1, h.1.2⟩, match_orders_noCross ⟨hb1, h.1.2⟩⟩
  · have ha1 : List.Sorted askRel (List.orderedInsert askRel o s.asks) :=
      List.Sorted.orderedInsert o s.asks h.1.2
    exact ⟨match_orders_sorted ⟨h.1.1, ha1⟩, match_orders_noCross ⟨h.1.1, ha1⟩⟩

lemma cancel_order_inv {s : Book} {oid : ℕ} (h : Inv s) :
    Inv (cancel_order s oid).1 := by
  unfold cancel_order
  rcases hl : mapLookup s.order_map oid with _ | o
  · exact h
  · dsimp only
    split_ifs with hside
    · refine ⟨⟨List.Sorted.filter _ h.1.1, h.1.2⟩, ?_⟩
      intro b hbm a ham
      exact h.2 b (List.mem_of_mem_filter hbm) a ham
    · refine ⟨⟨h.1.1, List.Sorted.filter _ h.1.2⟩, ?_⟩
      intro b hbm a ham
      exact h.2 b hbm a (List.mem_of_mem_filter ham)

lemma applyOp_inv {s : Book} {op : Op} (h : Inv s) : Inv (applyOp s op) := by
  cases op with
  | submit now side price quantity order_type participant_name =>
    exact add_order_inv h
  | cancel oid => exact cancel_order_inv h

lemma runFrom_inv : ∀ (ops : List Op) (s : Book), Inv s → Inv (runFrom s ops) := by
  intro ops
  induction ops with
  | nil => exact fun s h => h
  | cons op rest ih => exact fun s h => ih (applyOp s op) (applyOp_inv h)

lemma initBook_inv : Inv initBook := by
  refine ⟨⟨List.sorted_nil, List.sorted_nil⟩, ?_⟩
  intro b hb
  exact absurd hb (List.not_mem_nil b)

lemma runOps_inv (ops : List Op) : Inv (runOps ops) :=
  runFrom_inv ops initBook initBook_inv

lemma add_order_pos {now : ℚ} {s : Book} {o : Order} (h : PosQty s)
    (ho : 0 < o.quantity) : PosQty (add_order now s o).1 := by
  unfold add_order handle_market_order
  split_ifs with ht hside hae hbe hside2
  · exact h
  · exact marketBuyRun_pos h
  · exact h
  · exact marketSellRun_pos h
  · refine match_orders_pos ⟨?_, h.2⟩
    intro x hx
    rcases (List.mem_orderedInsert bidRel).mp hx with rfl | hx
    · exact ho
    · exact h.1 x hx
  · refine match_orders_pos ⟨h.1, ?_⟩
    intro x hx
    rcases (List.mem_orderedInsert askRel).mp hx with rfl | hx
    · exact ho
    · exact h.2 x hx

lemma cancel_order_pos {s : Book} {oid : ℕ} (h : PosQty s) :
    PosQty (cancel_order s oid).1 := by
  unfold cancel_order
  rcases hl : mapLookup s.order_map oid with _ | o
  · exact h
  · dsimp only
    split_ifs with hside
    · exact ⟨fun x hx => h.1 x (List.mem_of_mem_filter hx), h.2⟩
    · exact ⟨h.1, fun x hx => h.2 x (List.mem_of_mem_filter hx)⟩

lemma applyOp_pos {s : Book} {op : Op} (h : PosQty s) (hop : opPos op) :
    PosQty (applyOp s op) := by
  cases op with
  | submit now side price quantity order_type participant_name =>
    exact add_order_pos h hop
  | cancel oid => exact cancel_order_pos h

lemma runFrom_pos : ∀ (ops : List Op) (s : Book), PosQty s → (∀ op ∈ ops, opPos op) →
    PosQty (runFrom s ops) := by
  intro ops
  induction ops with
  | nil => exact fun s h _ => h
  | cons op rest ih =>
    intro s h hops
    exact ih (applyOp s op) (applyOp_pos h (hops op (List.mem_cons_self op rest)))
      fun x hx => hops x (List.mem_cons_of_mem op hx)

lemma initBook_pos : PosQty initBook := by
  refine ⟨?_, ?_⟩ <;> exact fun o ho => absurd ho (List.not_mem_nil o)

lemma runOps_pos (ops : List Op) (h : ∀ op ∈ ops, opPos op) : PosQty (runOps ops) :=
  runFrom_pos ops initBook initBook_pos h

/-! ### One-iteration unfolding laws for the full runs -/

/-- While a cross is live, `match_orders` performs one body iteration and
continues: running the whole loop equals one step then the whole loop. -/
lemma match_orders_unfold {now : ℚ} {s : Book} (hc : hasCross s = true) :
    match_orders now s = match_orders now (matchStep now s) := by
  obtain ⟨b, br, a, ar, hb, ha, _⟩ := hasCross_true_elim hc
  have hlen : s.bids.length + s.asks.length = br.length + ar.length + 1 + 1 := by
    rw [hb, ha]
    simp only [List.length_cons]
    omega
  have hstep := @matchStep_len now s hc
  have h1 : match_orders now s = matchLoopF now (br.length + ar.length + 1 + 1) s := by
    unfold match_orders
    rw [hlen]
  rw [h1, matchLoopF_succ, if_pos hc]
  exact matchLoopF_run (by omega)

/-- While quantity remains and asks exist, the BUY market loop performs one
iteration and continues. -/
lemma marketBuyRun_unfold {now : ℚ} {qty : ℤ} {s : Book} (hq : 0 < qty)
    (hne : s.asks ≠ []) :
    marketBuyRun now qty s =
      marketBuyRun now (qty - marketBuyTq qty s) (marketBuyStep now qty s) := by
  have h1 : marketBuyRun now qty s =
      marketBuyLoopF now s.asks.length (qty - marketBuyTq qty s) (marketBuyStep now qty s) := by
    unfold marketBuyRun
    rw [marketBuyLoopF_succ, if_pos ⟨hq, hne⟩]
  rcases ha : s.asks with _ | ⟨a, ar⟩
  · exact absurd ha hne
  · by_cases hz : a.quantity - min qty a.quantity = 0
    · have hstep : (marketBuyStep now qty s).asks = ar := by
        rw [marketBuyStep_asks ha, if_pos hz]
      rw [h1]
      refine marketBuyLoopF_run ?_
      rw [hstep, ha]
      simp
    · have hmin : min qty a.quantity = qty := by
        rcases min_choice qty a.quantity with h | h
        · exact h
        · omega
      have hq0 : qty - marketBuyTq qty s = 0 := by
        rw [marketBuyTq_eq ha, hmin]
        omega
      rw [h1, marketBuyLoopF_not_pos (by omega), marketBuyRun,
        marketBuyLoopF_not_pos (by omega)]

/-- While quantity remains and bids exist, the SELL market loop performs one
iteration and continues. -/
lemma marketSellRun_unfold {now : ℚ} {qty : ℤ} {s : Book} (hq : 0 < qty)
    (hne : s.bids ≠ []) :
    marketSellRun now qty s =
      marketSellRun now (qty - marketSellTq qty s) (marketSellStep now qty s) := by
  have h1 : marketSellRun now qty s =
      marketSellLoopF now s.bids.length (qty - marketSellTq qty s) (marketSellStep now qty s) := by
    unfold marketSellRun
    rw [marketSellLoopF_succ, if_pos ⟨hq, hne⟩]
  rcases hb : s.bids with _ | ⟨b, br⟩
  · exact absurd hb hne
  · by_cases hz : b.quantity - min qty b.quantity = 0
    · have hstep : (marketSellStep now qty s).bids = br := by
        rw [marketSellStep_bids hb, if_pos hz]
      rw [h1]
      refine marketSellLoopF_run ?_
      rw [hstep, hb]
      simp
    · have hmin : min qty b.quantity = qty := by
        rcases min_choice qty b.quantity with h | h
        · exact h
        · omega
      have hq0 : qty - marketSellTq qty s = 0 := by
        rw [marketSellTq_eq hb, hmin]
        omega
      rw [h1, marketSellLoopF_not_pos (by omega), marketSellRun,
        marketSellLoopF_not_pos (by omega)]

/-! ### The aggregated book view and the mid price -/

lemma bidPairRel_fst {x y : ℚ × ℤ} (h : bidPairRel x y) : y.1 ≤ x.1 := by
  rcases h with h | ⟨h, _⟩
  · exact h.le
  · exact h.ge

lemma askPairRel_fst {x y : ℚ × ℤ} (h : askPairRel x y) : x.1 ≤ y.1 := by
  rcases h with h | ⟨h, _⟩
  · exact h.le
  · exact h.le

lemma insertionSort_bid_head (l : List (ℚ × ℤ)) (p : ℚ × ℤ) (rest : List (ℚ × ℤ))
    (h : List.insertionSort bidPairRel l = p :: rest) :
    p ∈ l ∧ ∀ x ∈ l, x.1 ≤ p.1 := by
  have hperm := List.perm_insertionSort bidPairRel l
  rw [h] at hperm
  have hsorted := List.sorted_insertionSort bidPairRel l
  rw [h] at hsorted
  refine ⟨hperm.subset (List.mem_cons_self p rest), ?_⟩
  intro x hx
  rcases List.mem_cons.mp (hperm.symm.subset hx) with rfl | hx2
  · exact le_refl _
  · exact bidPairRel_fst (List.rel_of_sorted_cons hsorted x hx2)

lemma insertionSort_ask_head (l : List (ℚ × ℤ)) (p : ℚ × ℤ) (rest : List (ℚ × ℤ))
    (h : List.insertionSort askPairRel l = p :: rest) :
    p ∈ l ∧ ∀ x ∈ l, p.1 ≤ x.1 := by
  have hperm := List.perm_insertionSort askPairRel l
  rw [h] at hperm
  have hsorted := List.sorted_insertionSort askPairRel l
  rw [h] at hsorted
  refine ⟨hperm.subset (List.mem_cons_self p rest), ?_⟩
  intro x hx
  rcases List.mem_cons.mp (hperm.symm.subset hx) with rfl | hx2
  · exact le_refl _
  · exact askPairRel_fst (List.rel_of_sorted_cons hsorted x hx2)

lemma sorted_bid_head_price {b : Order} {br : List Order}
    (h : List.Sorted bidRel (b :: br)) : ∀ o ∈ b :: br, o.price ≤ b.price := by
  intro o ho
  rcases List.mem_cons.mp ho with rfl | ho
  · exact le_refl _
  · exact bidRel_price (List.rel_of_sorted_cons h o ho)

lemma sorted_ask_head_price {a : Order} {ar : List Order}
    (h : List.Sorted askRel (a :: ar)) : ∀ o ∈ a :: ar, a.price ≤ o.price := by
  intro o ho
  rcases List.mem_cons.mp ho with rfl | ho
  · exact le_refl _
  · exact askRel_price (List.rel_of_sorted_cons h o ho)

/-- With at least one side empty, `get_mid_price` falls back to the stored
last trade price. -/
lemma get_mid_price_empty {s : Book} (h : s.bids = [] ∨ s.asks = []) :
    get_mid_price s = s.last_trade_price := by
  rcases h with h | h
  · unfold get_mid_price get_order_book
    rw [h]
    rfl
  · unfold get_mid_price get_order_book
    rw [h]
    rcases hsort : List.insertionSort bidPairRel (s.bids.map fun o => (o.price, o.quantity)) with
      _ | ⟨p, prest⟩
    · rw [hsort]
    · rw [hsort]
      rfl

/-- With both sides populated and the queues sorted, `get_mid_price` is the
midpoint of the head prices. -/
lemma get_mid_price_heads {s : Book} {b a : Order} {br ar : List Order}
    (hs : SortedBook s) (hb : s.bids = b :: br) (ha : s.asks = a :: ar) :
    get_mid_price s = (b.price + a.price) / 2 := by
  obtain ⟨p, prest, hp⟩ : ∃ p prest,
      List.insertionSort bidPairRel (s.bids.map fun o => (o.price, o.quantity)) = p :: prest := by
    rcases hs2 : List.insertionSort bidPairRel (s.bids.map fun o => (o.price, o.quantity)) with
      _ | ⟨p, prest⟩
    · exfalso
      have hperm := List.perm_insertionSort bidPairRel
        (s.bids.map fun o => (o.price, o.quantity))
      rw [hs2] at hperm
      have : s.bids.map (fun o => (o.price, o.quantity)) = [] := hperm.nil_eq.symm
      rw [hb] at this
      simp at this
    · exact ⟨p, prest, hs2⟩
  obtain ⟨q, qrest, hq⟩ : ∃ q qrest,
      List.insertionSort askPairRel (s.asks.map fun o => (o.price, o.quantity)) = q :: qrest := by
    rcases hs2 : List.insertionSort askPairRel (s.asks.map fun o => (o.price, o.quantity)) with
      _ | ⟨q, qrest⟩
    · exfalso
      have hperm := List.perm_insertionSort askPairRel
        (s.asks.map fun o => (o.price, o.quantity))
      rw [hs2] at hperm
      have : s.asks.map (fun o => (o.price, o.quantity)) = [] := hperm.nil_eq.symm
      rw [ha] at this
      simp at this
    · exact ⟨q, qrest, hs2⟩
  have hbhead := insertionSort_bid_head _ _ _ hp
  have hahead := insertionSort_ask_head _ _ _ hq
  have hp1 : p.1 = b.price := by
    obtain ⟨o, ho, hoe⟩ := List.mem_map.mp hbhead.1
    have h1 : p.1 ≤ b.price := by
      rw [← hoe]
      exact sorted_bid_head_price (hb ▸ hs.1) o (hb ▸ ho)
    have h2 : b.price ≤ p.1 := by
      have hm : (b.price, b.quantity) ∈ s.bids.map fun o => (o.price, o.quantity) :=
        List.mem_map.mpr ⟨b, hb ▸ List.mem_cons_self b br, rfl⟩
      exact hbhead.2 (b.price, b.quantity) hm
    exact le_antisymm h1 h2
  have hq1 : q.1 = a.price := by
    obtain ⟨o, ho, hoe⟩ := List.mem_map.mp hahead.1
    have h1 : a.price ≤ q.1 := by
      rw [← hoe]
      exact sorted_ask_head_price (ha ▸ hs.2) o (ha ▸ ho)
    have h2 : q.1 ≤ a.price := by
      have hm : (a.price, a.quantity) ∈ s.asks.map fun o => (o.price, o.quantity) :=
        List.mem_map.mpr ⟨a, ha ▸ List.mem_cons_self a ar, rfl⟩
      exact hahead.2 (a.price, a.quantity) hm
    exact le_antisymm h2 h1
  unfold get_mid_price get_order_book
  rw [hp, hq]
  dsimp only
  rw [hp1, hq1]

/-! ### Quantity conservation per operation and per trace -/

lemma match_orders_conserv (now : ℚ) (s : Book) :
    restingVol (match_orders now s) + 2 * tradeVol (match_orders now s) =
      restingVol s + 2 * tradeVol s :=
  matchLoopF_conserv now _ s

lemma bidVol_insert (o : Order) (l : List Order) :
    ((List.orderedInsert bidRel o l).map Order.quantity).sum =
      o.quantity + (l.map Order.quantity).sum := by
  have h := (List.perm_orderedInsert bidRel o l).map Order.quantity
  rw [h.sum_eq]
  simp

lemma askVol_insert (o : Order) (l : List Order) :
    ((List.orderedInsert askRel o l).map Order.quantity).sum =
      o.quantity + (l.map Order.quantity).sum := by
  have h := (List.perm_orderedInsert askRel o l).map Order.quantity
  rw [h.sum_eq]
  simp

/-- Accepted or rejected, a market order conserves resting plus traded volume. -/
lemma market_conserv {now : ℚ} {s : Book} {o : Order} :
    restingVol (handle_market_order now s o).1 + tradeVol (handle_market_order now s o).1 =
      restingVol s + tradeVol s := by
  unfold handle_market_order
  split_ifs with hside hae hbe
  · rfl
  · exact marketBuyLoopF_conserv now _ o.quantity s
  · rfl
  · exact marketSellLoopF_conserv now _ o.quantity s

/-- A market submission through `add_order` conserves resting plus traded
volume. -/
lemma add_order_market_conserv {now : ℚ} {s : Book} {o : Order}
    (ht : o.order_type = "MARKET") :
    restingVol (add_order now s o).1 + tradeVol (add_order now s o).1 =
      restingVol s + tradeVol s := by
  unfold add_order
  rw [if_pos ht]
  exact market_conserv

/-- A limit submission adds its quantity to the resting volume and then each
cross converts two units of resting volume per unit of traded volume. -/
lemma limit_conserv {now : ℚ} {s : Book} {o : Order} (ht : ¬ o.order_type = "MARKET") :
    restingVol (add_order now s o).1 + 2 * tradeVol (add_order now s o).1 =
      restingVol s + o.quantity + 2 * tradeVol s := by
  unfold add_order
  rw [if_neg ht]
  split_ifs with hside
  all_goals dsimp only
  · have h1 := match_orders_conserv now { s with bids := List.orderedInsert bidRel o s.bids, order_map := (o.order_id, o) :: s.order_map }
    have h2 : restingVol { s with bids := List.orderedInsert bidRel o s.bids, order_map := (o.order_id, o) :: s.order_map } = restingVol s + o.quantity := by
      unfold restingVol bidVol askVol
      dsimp only
      rw [bidVol_insert]
      omega
    have h3 : tradeVol { s with bids := List.orderedInsert bidRel o s.bids, order_map := (o.order_id, o) :: s.order_map } = tradeVol s := rfl
    rw [h2, h3] at h1
    omega
  · have h1 := match_orders_conserv now { s with asks := List.orderedInsert askRel o s.asks, order_map := (o.order_id, o) :: s.order_map }
    have h2 : restingVol { s with asks := List.orderedInsert askRel o s.asks, order_map := (o.order_id, o) :: s.order_map } = restingVol s + o.quantity := by
      unfold restingVol bidVol askVol
      dsimp only
      rw [askVol_insert]
      omega
    have h3 : tradeVol { s with asks := List.orderedInsert askRel o s.asks, order_map := (o.order_id, o) :: s.order_map } = tradeVol s := rfl
    rw [h2, h3] at h1
    omega

/-- One operation balances the ledger: the admitted limit volume equals the
change in resting volume plus the cancelled volume plus twice the cross-trade
volume plus the market-trade volume. -/
lemma op_ledger (s : Book) (op : Op) :
    restingVol (applyOp s op) + cancelVolOf s op + 2 * crossVolOf s op + mktVolOf s op =
      restingVol s + limitVolOf op := by
  cases op with
  | cancel oid =>
    simp only [cancelVolOf, crossVolOf, mktVolOf, limitVolOf]
    omega
  | submit now side price quantity order_type name =>
    by_cases ht : order_type = "MARKET"
    · simp only [cancelVolOf, crossVolOf, mktVolOf, limitVolOf, if_pos ht]
      have happ : applyOp s (Op.submit now side price quantity order_type name) =
          (add_order now { s with next_order_id := s.next_order_id + 1 }
            ⟨s.next_order_id, side, price, quantity, order_type, now, name⟩).1 := rfl
      have h1 := @add_order_market_conserv now { s with next_order_id := s.next_order_id + 1 } ⟨s.next_order_id, side, price, quantity, order_type, now, name⟩ ht
      have h2 : restingVol { s with next_order_id := s.next_order_id + 1 } = restingVol s := rfl
      have h3 : tradeVol { s with next_order_id := s.next_order_id + 1 } = tradeVol s := rfl
      rw [happ]
      rw [h2, h3] at h1
      omega
    · simp only [cancelVolOf, crossVolOf, mktVolOf, limitVolOf, if_neg ht]
      have happ : applyOp s (Op.submit now side price quantity order_type name) =
          (add_order now { s with next_order_id := s.next_order_id + 1 }
            ⟨s.next_order_id, side, price, quantity, order_type, now, name⟩).1 := rfl
      have h1 := @limit_conserv now { s with next_order_id := s.next_order_id + 1 } ⟨s.next_order_id, side, price, quantity, order_type, now, name⟩ ht
      have h2 : restingVol { s with next_order_id := s.next_order_id + 1 } = restingVol s := rfl
      have h3 : tradeVol { s with next_order_id := s.next_order_id + 1 } = tradeVol s := rfl
      have hq : (⟨s.next_order_id, side, price, quantity, order_type, now, name⟩ : Order).quantity = quantity := rfl
      rw [happ]
      rw [h2, h3, hq] at h1
      omega

/-- The ledger balances along any trace. -/
lemma trace_ledger : ∀ (ops : List Op) (s : Book),
    restingVol (runFrom s ops) + traceSum cancelVolOf s ops +
      2 * traceSum crossVolOf s ops + traceSum mktVolOf s ops =
      restingVol s + traceSum (fun _ op => limitVolOf op) s ops := by
  intro ops
  induction ops with
  | nil =>
    intro s
    simp only [traceSum, runFrom, List.foldl_nil]
    omega
  | cons op rest ih =>
    intro s
    have hrun : runFrom s (op :: rest) = runFrom (applyOp s op) rest := rfl
    have hop := op_ledger s op
    have hih := ih (applyOp s op)
    simp only [traceSum, hrun]
    omega

/-! ### Claim theorems -/

/-- C1: No-crossed-book invariant.  In every state reachable from the empty
book via any sequence of submit (LIMIT or MARKET) and cancel operations,
every resting bid price is strictly less than every resting ask price. -/
theorem c1_no_crossed_book (ops : List Op) :
    ∀ b ∈ (runOps ops).bids, ∀ a ∈ (runOps ops).asks, b.price < a.price :=
  (runOps_inv ops).2

/-- Witness for C1 at a concrete trace with one resting bid and one resting
ask. -/
theorem c1_no_crossed_book_witness :
    (⟨1, "BUY", 100, 10, "LIMIT", 0, "p"⟩ : Order) ∈
      (runOps [Op.submit 0 "BUY" 100 10 "LIMIT" "p", Op.submit 1 "SELL" 101 5 "LIMIT" "q"]).bids ∧
    (⟨2, "SELL", 101, 5, "LIMIT", 1, "q"⟩ : Order) ∈
      (runOps [Op.submit 0 "BUY" 100 10 "LIMIT" "p", Op.submit 1 "SELL" 101 5 "LIMIT" "q"]).asks ∧
    (⟨1, "BUY", 100, 10, "LIMIT", 0, "p"⟩ : Order).price <
      (⟨2, "SELL", 101, 5, "LIMIT", 1, "q"⟩ : Order).price :=
  ⟨by decide, by decide,
    c1_no_crossed_book [Op.submit 0 "BUY" 100 10 "LIMIT" "p", Op.submit 1 "SELL" 101 5 "LIMIT" "q"]
      ⟨1, "BUY", 100, 10, "LIMIT", 0, "p"⟩ (by decide)
      ⟨2, "SELL", 101, 5, "LIMIT", 1, "q"⟩ (by decide)⟩

/-- C4, counterexample: a MARKET BUY submitted to the fresh empty book (asks
empty) is rejected with no usable id, but the engine state is NOT entirely
unchanged: `add_order_api` increments `next_order_id` before the rejection, so
the resulting state differs from the initial one. -/
theorem c4_counterexample :
    (add_order_api initBook 0 "BUY" 100 5 "MARKET" "p").2.1 = false ∧
    (add_order_api initBook 0 "BUY" 100 5 "MARKET" "p").2.2 = none ∧
    (add_order_api initBook 0 "BUY" 100 5 "MARKET" "p").1 ≠ initBook ∧
    (add_order_api initBook 0 "BUY" 100 5 "MARKET" "p").1.next_order_id = 2 ∧
    initBook.next_order_id = 1 := by
  decide

/-- C4 (amended): a MARKET order submitted when the opposite side is empty
returns accepted = false with no id, leaves bids, asks, trades, the order
index and the last trade price unchanged, and performs no execution; the only
state change is that the id counter is incremented (the rejected submission
still consumes an order id). -/
theorem c4_rejected_market_no_op :
    (∀ (s : Book) (now price : ℚ) (qty : ℤ) (pname : String), s.asks = [] →
      add_order_api s now "BUY" price qty "MARKET" pname =
        ({ s with next_order_id := s.next_order_id + 1 }, false, none)) ∧
    (∀ (s : Book) (now price : ℚ) (qty : ℤ) (pname : String), s.bids = [] →
      add_order_api s now "SELL" price qty "MARKET" pname =
        ({ s with next_order_id := s.next_order_id + 1 }, false, none)) := by
  constructor
  · intro s now price qty pname ha
    unfold add_order_api add_order handle_market_order
    dsimp only
    rw [if_pos rfl, if_pos rfl, if_pos ha]
    rfl
  · intro s now price qty pname hb
    unfold add_order_api add_order handle_market_order
    dsimp only
    rw [if_pos rfl, if_neg (by decide), if_pos hb]
    rfl

/-- Witness for C4 (amended) at the fresh empty book, in both directions. -/
theorem c4_rejected_market_no_op_witness :
    initBook.asks = [] ∧
    add_order_api initBook 0 "BUY" 100 5 "MARKET" "p" =
      ({ initBook with next_order_id := initBook.next_order_id + 1 }, false, none) ∧
    initBook.bids = [] ∧
    add_order_api initBook 0 "SELL" 100 5 "MARKET" "p" =
      ({ initBook with next_order_id := initBook.next_order_id + 1 }, false, none) :=
  ⟨rfl, c4_rejected_market_no_op.1 initBook 0 100 5 "p" rfl,
   rfl, c4_rejected_market_no_op.2 initBook 0 100 5 "p" rfl⟩

/-- C5 (the code evaluated at the failing input): submit LIMIT BUY 100 x10
(id 1), then LIMIT SELL 100 x10 (id 2); both fully fill and rest nowhere, yet
`cancel_order` on id 1 returns `true` (the claim requires `false` for an
already-filled id) because filled orders are never deleted from the index. -/
theorem c5_cancel_filled_id_returns_true :
    (runOps [Op.submit 0 "BUY" 100 10 "LIMIT" "p", Op.submit 1 "SELL" 100 10 "LIMIT" "q"]).bids = [] ∧
    (runOps [Op.submit 0 "BUY" 100 10 "LIMIT" "p", Op.submit 1 "SELL" 100 10 "LIMIT" "q"]).asks = [] ∧
    (runOps [Op.submit 0 "BUY" 100 10 "LIMIT" "p", Op.submit 1 "SELL" 100 10 "LIMIT" "q"]).trades =
      [⟨1, 100, 10, "SELL"⟩] ∧
    (cancel_order (runOps [Op.submit 0 "BUY" 100 10 "LIMIT" "p", Op.submit 1 "SELL" 100 10 "LIMIT" "q"]) 1).2 = true := by
  decide

/-- C6 (the code evaluated at the failing input): after the same two fully
matched limit orders, id 1 is fully filled (quantity 0) and rests in neither
queue, yet it is still present in the order index, violating the claimed
index-queue consistency. -/
theorem c6_filled_order_remains_in_index :
    mapLookup (runOps [Op.submit 0 "BUY" 100 10 "LIMIT" "p", Op.submit 1 "SELL" 100 10 "LIMIT" "q"]).order_map 1 =
      some ⟨1, "BUY", 100, 0, "LIMIT", 0, "p"⟩ ∧
    (runOps [Op.submit 0 "BUY" 100 10 "LIMIT" "p", Op.submit 1 "SELL" 100 10 "LIMIT" "q"]).bids = [] ∧
    (runOps [Op.submit 0 "BUY" 100 10 "LIMIT" "p", Op.submit 1 "SELL" 100 10 "LIMIT" "q"]).asks = [] := by
  decide

/-- C2: Continuous limit matching.  While the best bid price is at least the
best ask price, the engine executes min of the two head quantities at the
resting ask price, records a Trade tagged with the side of the later-stamped
order, decrements both head quantities by the traded quantity, removes heads
that reach zero quantity, and repeats (running the whole loop equals one step
then the whole loop) until no cross remains or one side is empty; from the
empty book, LIMIT BUY 100 x10 then LIMIT SELL 99 x5 yields exactly one
Trade(99, 5), a single resting bid (100, 5) and no asks. -/
theorem c2_continuous_limit_matching :
    (∀ (now : ℚ) (s : Book) (b a : Order) (br ar : List Order),
      s.bids = b :: br → s.asks = a :: ar → a.price ≤ b.price →
        match_orders now s = match_orders now (matchStep now s) ∧
        (matchStep now s).trades = s.trades ++ [⟨now, a.price, min b.quantity a.quantity, if a.timestamp < b.timestamp then "BUY" else "SELL"⟩] ∧
        bidVol s - bidVol (matchStep now s) = min b.quantity a.quantity ∧
        askVol s - askVol (matchStep now s) = min b.quantity a.quantity ∧
        (matchStep now s).bids = (if b.quantity - min b.quantity a.quantity = 0 then br else { b with quantity := b.quantity - min b.quantity a.quantity } :: br) ∧
        (matchStep now s).asks = (if a.quantity - min b.quantity a.quantity = 0 then ar else { a with quantity := a.quantity - min b.quantity a.quantity } :: ar)) ∧
    (∀ (now : ℚ) (s : Book), SortedBook s → NoCross (match_orders now s)) ∧
    (runOps [Op.submit 0 "BUY" 100 10 "LIMIT" "p", Op.submit 1 "SELL" 99 5 "LIMIT" "q"]).trades = [⟨1, 99, 5, "SELL"⟩] ∧
    (runOps [Op.submit 0 "BUY" 100 10 "LIMIT" "p", Op.submit 1 "SELL" 99 5 "LIMIT" "q"]).bids = [⟨1, "BUY", 100, 5, "LIMIT", 0, "p"⟩] ∧
    (runOps [Op.submit 0 "BUY" 100 10 "LIMIT" "p", Op.submit 1 "SELL" 99 5 "LIMIT" "q"]).asks = [] := by
  refine ⟨?_, ?_, by decide, by decide, by decide⟩
  · intro now s b a br ar hb ha hba
    have hc : hasCross s = true := by
      rw [hasCross_eq hb ha]
      exact decide_eq_true hba
    refine ⟨match_orders_unfold hc, matchStep_trades hb ha, ?_, ?_,
      matchStep_bids hb ha, matchStep_asks hb ha⟩
    · rw [matchStep_bidVol hb ha]
      omega
    · rw [matchStep_askVol hb ha]
      omega
  · intro now s hs
    exact match_orders_noCross hs

/-- Witness for C2: one concrete crossing book (bid 100 x10 stamped 0 against
ask 99 x5 stamped 1) for the step law and the exit law. -/
theorem c2_continuous_limit_matching_witness :
    (⟨[⟨1, "BUY", 100, 10, "LIMIT", 0, "p"⟩], [⟨2, "SELL", 99, 5, "LIMIT", 1, "q"⟩], [], [], 3, 100⟩ : Book).bids = [⟨1, "BUY", 100, 10, "LIMIT", 0, "p"⟩] ∧
    (⟨[⟨1, "BUY", 100, 10, "LIMIT", 0, "p"⟩], [⟨2, "SELL", 99, 5, "LIMIT", 1, "q"⟩], [], [], 3, 100⟩ : Book).asks = [⟨2, "SELL", 99, 5, "LIMIT", 1, "q"⟩] ∧
    ((99 : ℚ) ≤ 100) ∧
    match_orders 2 ⟨[⟨1, "BUY", 100, 10, "LIMIT", 0, "p"⟩], [⟨2, "SELL", 99, 5, "LIMIT", 1, "q"⟩], [], [], 3, 100⟩ =
      match_orders 2 (matchStep 2 ⟨[⟨1, "BUY", 100, 10, "LIMIT", 0, "p"⟩], [⟨2, "SELL", 99, 5, "LIMIT", 1, "q"⟩], [], [], 3, 100⟩) ∧
    SortedBook ⟨[⟨1, "BUY", 100, 10, "LIMIT", 0, "p"⟩], [⟨2, "SELL", 99, 5, "LIMIT", 1, "q"⟩], [], [], 3, 100⟩ ∧
    NoCross (match_orders 2 ⟨[⟨1, "BUY", 100, 10, "LIMIT", 0, "p"⟩], [⟨2, "SELL", 99, 5, "LIMIT", 1, "q"⟩], [], [], 3, 100⟩) :=
  ⟨rfl, rfl, by decide,
    (c2_continuous_limit_matching.1 2
      ⟨[⟨1, "BUY", 100, 10, "LIMIT", 0, "p"⟩], [⟨2, "SELL", 99, 5, "LIMIT", 1, "q"⟩], [], [], 3, 100⟩
      ⟨1, "BUY", 100, 10, "LIMIT", 0, "p"⟩ ⟨2, "SELL", 99, 5, "LIMIT", 1, "q"⟩ [] []
      rfl rfl (by decide)).1,
    by decide,
    c2_continuous_limit_matching.2.1 2
      ⟨[⟨1, "BUY", 100, 10, "LIMIT", 0, "p"⟩], [⟨2, "SELL", 99, 5, "LIMIT", 1, "q"⟩], [], [], 3, 100⟩
      (by decide)⟩

/-- C3: Market execution.  A MARKET order with a nonempty opposite side is
accepted; each iteration of its loop takes the head of the opposite queue
(which, in a sorted book, carries the best price on that side), trades min of
the remaining market quantity and the resting quantity at the resting price,
tags the Trade with the market side, pops the resting order at zero, and
repeats; the loop never touches the own side and never queues a remainder;
with only ask(100, 10) resting, MARKET BUY x15 is accepted, records exactly
Trade(100, 10), removes the ask, and leaves nothing resting. -/
theorem c3_market_execution :
    (∀ (s : Book) (now price : ℚ) (qty : ℤ) (pname : String), s.asks ≠ [] →
      (add_order_api s now "BUY" price qty "MARKET" pname).2.1 = true) ∧
    (∀ (s : Book) (now price : ℚ) (qty : ℤ) (pname : String), s.bids ≠ [] →
      (add_order_api s now "SELL" price qty "MARKET" pname).2.1 = true) ∧
    (∀ (now : ℚ) (qty : ℤ) (s : Book), 0 < qty → s.asks ≠ [] →
      marketBuyRun now qty s = marketBuyRun now (qty - marketBuyTq qty s) (marketBuyStep now qty s)) ∧
    (∀ (now : ℚ) (qty : ℤ) (s : Book), 0 < qty → s.bids ≠ [] →
      marketSellRun now qty s = marketSellRun now (qty - marketSellTq qty s) (marketSellStep now qty s)) ∧
    (∀ (now : ℚ) (qty : ℤ) (s : Book) (a : Order) (ar : List Order), s.asks = a :: ar →
      marketBuyTq qty s = min qty a.quantity ∧
      (marketBuyStep now qty s).trades = s.trades ++ [⟨now, a.price, min qty a.quantity, "BUY"⟩] ∧
      askVol s - askVol (marketBuyStep now qty s) = min qty a.quantity ∧
      (marketBuyStep now qty s).asks = (if a.quantity - min qty a.quantity = 0 then ar else { a with quantity := a.quantity - min qty a.quantity } :: ar) ∧
      (marketBuyStep now qty s).bids = s.bids) ∧
    (∀ (now : ℚ) (fuel : ℕ) (qty : ℤ) (s : Book), (marketBuyLoopF now fuel qty s).bids = s.bids) ∧
    (∀ (now : ℚ) (fuel : ℕ) (qty : ℤ) (s : Book), (marketSellLoopF now fuel qty s).asks = s.asks) ∧
    (∀ (s : Book) (a : Order) (ar : List Order), List.Sorted askRel s.asks → s.asks = a :: ar →
      ∀ x ∈ s.asks, a.price ≤ x.price) ∧
    (add_order_api (runOps [Op.submit 0 "SELL" 100 10 "LIMIT" "p"]) 1 "BUY" 0 15 "MARKET" "q").2.1 = true ∧
    (add_order_api (runOps [Op.submit 0 "SELL" 100 10 "LIMIT" "p"]) 1 "BUY" 0 15 "MARKET" "q").1.trades = [⟨1, 100, 10, "BUY"⟩] ∧
    (add_order_api (runOps [Op.submit 0 "SELL" 100 10 "LIMIT" "p"]) 1 "BUY" 0 15 "MARKET" "q").1.asks = [] ∧
    (add_order_api (runOps [Op.submit 0 "SELL" 100 10 "LIMIT" "p"]) 1 "BUY" 0 15 "MARKET" "q").1.bids = [] := by
  refine ⟨?_, ?_, ?_, ?_, ?_, ?_, ?_, ?_, by decide, by decide, by decide, by decide⟩
  · intro s now price qty pname hne
    unfold add_order_api add_order handle_market_order
    dsimp only
    rw [if_pos rfl, if_pos rfl]
    split_ifs with h
    · exact absurd h hne
    · rfl
  · intro s now price qty pname hne
    unfold add_order_api add_order handle_market_order
    dsimp only
    rw [if_pos rfl, if_neg (by decide)]
    split_ifs with h
    · exact absurd h hne
    · rfl
  · intro now qty s hq hne
    exact marketBuyRun_unfold hq hne
  · intro now qty s hq hne
    exact marketSellRun_unfold hq hne
  · intro now qty s a ar ha
    refine ⟨marketBuyTq_eq ha, marketBuyStep_trades ha, ?_, marketBuyStep_asks ha,
      marketBuyStep_bids now qty s⟩
    rw [marketBuyStep_askVol ha]
    omega
  · intro now fuel qty s
    exact marketBuyLoopF_bids now fuel qty s
  · intro now fuel qty s
    exact marketSellLoopF_asks now fuel qty s
  · intro s a ar hs ha
    rw [ha]
    exact sorted_ask_head_price (ha ▸ hs)

/-- Witness for C3: acceptance, one loop step, and the head-is-best-price fact
at a concrete one-ask book. -/
theorem c3_market_execution_witness :
    ((⟨[], [⟨1, "SELL", 100, 10, "LIMIT", 0, "p"⟩], [], [], 2, 100⟩ : Book).asks ≠ []) ∧
    (add_order_api ⟨[], [⟨1, "SELL", 100, 10, "LIMIT", 0, "p"⟩], [], [], 2, 100⟩ 1 "BUY" 0 15 "MARKET" "q").2.1 = true ∧
    ((0 : ℤ) < 15) ∧
    marketBuyRun 1 15 ⟨[], [⟨1, "SELL", 100, 10, "LIMIT", 0, "p"⟩], [], [], 2, 100⟩ =
      marketBuyRun 1 (15 - marketBuyTq 15 ⟨[], [⟨1, "SELL", 100, 10, "LIMIT", 0, "p"⟩], [], [], 2, 100⟩)
        (marketBuyStep 1 15 ⟨[], [⟨1, "SELL", 100, 10, "LIMIT", 0, "p"⟩], [], [], 2, 100⟩) ∧
    marketBuyTq 15 ⟨[], [⟨1, "SELL", 100, 10, "LIMIT", 0, "p"⟩], [], [], 2, 100⟩ = min 15 10 :=
  ⟨by decide,
    c3_market_execution.1 ⟨[], [⟨1, "SELL", 100, 10, "LIMIT", 0, "p"⟩], [], [], 2, 100⟩ 1 0 15 "q" (by decide),
    by decide,
    c3_market_execution.2.2.1 1 15 ⟨[], [⟨1, "SELL", 100, 10, "LIMIT", 0, "p"⟩], [], [], 2, 100⟩ (by decide) (by decide),
    (c3_market_execution.2.2.2.2.1 1 15 ⟨[], [⟨1, "SELL", 100, 10, "LIMIT", 0, "p"⟩], [], [], 2, 100⟩ ⟨1, "SELL", 100, 10, "LIMIT", 0, "p"⟩ [] rfl).1⟩

/-- C7, counterexample: two resting bids at the same price level 100 (5 and 3)
produce TWO entries (100, 5) and (100, 3) in `get_order_book` rather than one
aggregated entry (100, 8): the code emits one pair per order, not per price
level. -/
theorem c7_counterexample :
    get_order_book (runOps [Op.submit 0 "BUY" 100 5 "LIMIT" "p", Op.submit 1 "BUY" 100 3 "LIMIT" "q"]) = ([(100, 5), (100, 3)], []) ∧
    (get_order_book (runOps [Op.submit 0 "BUY" 100 5 "LIMIT" "p", Op.submit 1 "BUY" 100 3 "LIMIT" "q"])).1 ≠ [(100, 8)] ∧
    (runOps [Op.submit 0 "BUY" 100 5 "LIMIT" "p", Op.submit 1 "BUY" 100 3 "LIMIT" "q"]).bids.length = 2 := by
  decide

/-- C7 (amended): `get_order_book` returns per side one `(price, quantity)`
entry per resting order (a permutation of the queue contents, NOT aggregated
by price level), bids sorted with non-increasing prices and asks with
non-decreasing prices; when every submission carries positive quantity, no
zero-quantity entry ever appears.  It reads the state without modifying it
(it is a pure function of the state). -/
theorem c7_get_book (ops : List Op) (hpos : ∀ op ∈ ops, opPos op) :
    (get_order_book (runOps ops)).1.Perm ((runOps ops).bids.map fun o => (o.price, o.quantity)) ∧
    (get_order_book (runOps ops)).2.Perm ((runOps ops).asks.map fun o => (o.price, o.quantity)) ∧
    List.Sorted (fun x y : ℚ × ℤ => y.1 ≤ x.1) (get_order_book (runOps ops)).1 ∧
    List.Sorted (fun x y : ℚ × ℤ => x.1 ≤ y.1) (get_order_book (runOps ops)).2 ∧
    (∀ e ∈ (get_order_book (runOps ops)).1, 0 < e.2) ∧
    (∀ e ∈ (get_order_book (runOps ops)).2, 0 < e.2) := by
  have hp := runOps_pos ops hpos
  refine ⟨List.perm_insertionSort _ _, List.perm_insertionSort _ _, ?_, ?_, ?_, ?_⟩
  · exact (List.sorted_insertionSort bidPairRel _).imp fun h => bidPairRel_fst h
  · exact (List.sorted_insertionSort askPairRel _).imp fun h => askPairRel_fst h
  · intro e he
    have : e ∈ (runOps ops).bids.map fun o => (o.price, o.quantity) :=
      (List.perm_insertionSort bidPairRel _).subset he
    obtain ⟨o, ho, rfl⟩ := List.mem_map.mp this
    exact hp.1 o ho
  · intro e he
    have : e ∈ (runOps ops).asks.map fun o => (o.price, o.quantity) :=
      (List.perm_insertionSort askPairRel _).subset he
    obtain ⟨o, ho, rfl⟩ := List.mem_map.mp this
    exact hp.2 o ho

/-- Witness for C7 (amended) at a concrete positive-quantity trace. -/
theorem c7_get_book_witness :
    (∀ op ∈ [Op.submit 0 "BUY" 100 5 "LIMIT" "p", Op.submit 1 "BUY" 100 3 "LIMIT" "q"], opPos op) ∧
    (∀ e ∈ (get_order_book (runOps [Op.submit 0 "BUY" 100 5 "LIMIT" "p", Op.submit 1 "BUY" 100 3 "LIMIT" "q"])).1, 0 < e.2) ∧
    List.Sorted (fun x y : ℚ × ℤ => y.1 ≤ x.1)
      (get_order_book (runOps [Op.submit 0 "BUY" 100 5 "LIMIT" "p", Op.submit 1 "BUY" 100 3 "LIMIT" "q"])).1 :=
  ⟨by decide,
    (c7_get_book [Op.submit 0 "BUY" 100 5 "LIMIT" "p", Op.submit 1 "BUY" 100 3 "LIMIT" "q"] (by decide)).2.2.2.2.1,
    (c7_get_book [Op.submit 0 "BUY" 100 5 "LIMIT" "p", Op.submit 1 "BUY" 100 3 "LIMIT" "q"] (by decide)).2.2.1⟩

/-- C8: get_mid_price.  In every reachable state with both sides populated it
returns half the sum of the best bid price and the best ask price (the heads
of the two queues, which dominate their sides); in every state with an empty
side it returns the stored last trade price (initialised to the fixed default
at construction); it is a pure function of the state. -/
theorem c8_get_mid_price :
    (∀ (ops : List Op) (b a : Order) (br ar : List Order),
      (runOps ops).bids = b :: br → (runOps ops).asks = a :: ar →
        get_mid_price (runOps ops) = (b.price + a.price) / 2) ∧
    (∀ (ops : List Op) (b : Order) (br : List Order), (runOps ops).bids = b :: br →
      ∀ x ∈ (runOps ops).bids, x.price ≤ b.price) ∧
    (∀ (ops : List Op) (a : Order) (ar : List Order), (runOps ops).asks = a :: ar →
      ∀ x ∈ (runOps ops).asks, a.price ≤ x.price) ∧
    (∀ s : Book, s.bids = [] ∨ s.asks = [] → get_mid_price s = s.last_trade_price) := by
  refine ⟨?_, ?_, ?_, fun s h => get_mid_price_empty h⟩
  · intro ops b a br ar hb ha
    exact get_mid_price_heads (runOps_inv ops).1 hb ha
  · intro ops b br hb
    rw [hb]
    exact sorted_bid_head_price (hb ▸ (runOps_inv ops).1.1)
  · intro ops a ar ha
    rw [ha]
    exact sorted_ask_head_price (ha ▸ (runOps_inv ops).1.2)

/-- Witness for C8: a book with bid 100 and ask 102 has mid price 101, and
the fresh empty book falls back to the stored default. -/
theorem c8_get_mid_price_witness :
    (runOps [Op.submit 0 "BUY" 100 10 "LIMIT" "p", Op.submit 1 "SELL" 102 4 "LIMIT" "q"]).bids =
      [⟨1, "BUY", 100, 10, "LIMIT", 0, "p"⟩] ∧
    (runOps [Op.submit 0 "BUY" 100 10 "LIMIT" "p", Op.submit 1 "SELL" 102 4 "LIMIT" "q"]).asks =
      [⟨2, "SELL", 102, 4, "LIMIT", 1, "q"⟩] ∧
    get_mid_price (runOps [Op.submit 0 "BUY" 100 10 "LIMIT" "p", Op.submit 1 "SELL" 102 4 "LIMIT" "q"]) =
      ((⟨1, "BUY", 100, 10, "LIMIT", 0, "p"⟩ : Order).price + (⟨2, "SELL", 102, 4, "LIMIT", 1, "q"⟩ : Order).price) / 2 ∧
    (initBook.bids = [] ∨ initBook.asks = []) ∧
    get_mid_price initBook = initBook.last_trade_price :=
  ⟨by decide, by decide,
    c8_get_mid_price.1 [Op.submit 0 "BUY" 100 10 "LIMIT" "p", Op.submit 1 "SELL" 102 4 "LIMIT" "q"]
      ⟨1, "BUY", 100, 10, "LIMIT", 0, "p"⟩ ⟨2, "SELL", 102, 4, "LIMIT", 1, "q"⟩ [] []
      (by decide) (by decide),
    Or.inl rfl,
    c8_get_mid_price.2.2.2 initBook (Or.inl rfl)⟩

/-! ### Trade-log accounting along a trace -/

lemma cancel_order_trades (s : Book) (oid : ℕ) : (cancel_order s oid).1.trades = s.trades := by
  unfold cancel_order
  rcases hl : mapLookup s.order_map oid with _ | o
  · rfl
  · dsimp only
    split_ifs with hside
    · rfl
    · rfl

lemma op_tradeVol (s : Book) (op : Op) :
    tradeVol (applyOp s op) = tradeVol s + crossVolOf s op + mktVolOf s op := by
  cases op with
  | cancel oid =>
    have h : tradeVol (applyOp s (Op.cancel oid)) = tradeVol s := by
      show tradeVol (cancel_order s oid).1 = tradeVol s
      unfold tradeVol
      rw [cancel_order_trades]
    simp only [crossVolOf, mktVolOf]
    omega
  | submit now side price quantity order_type name =>
    by_cases ht : order_type = "MARKET"
    · simp only [crossVolOf, mktVolOf, if_pos ht]
      omega
    · simp only [crossVolOf, mktVolOf, if_neg ht]
      omega

lemma trace_tradeVol : ∀ (ops : List Op) (s : Book),
    tradeVol (runFrom s ops) =
      tradeVol s + traceSum crossVolOf s ops + traceSum mktVolOf s ops := by
  intro ops
  induction ops with
  | nil =>
    intro s
    simp only [traceSum, runFrom, List.foldl_nil]
    omega
  | cons op rest ih =>
    intro s
    have hrun : runFrom s (op :: rest) = runFrom (applyOp s op) rest := rfl
    have hop := op_tradeVol s op
    have hih := ih (applyOp s op)
    simp only [traceSum, hrun]
    omega

/-- C9: Quantity conservation.  For every single match event - a limit cross
step or a market execution step - the quantity removed from each involved
order equals the quantity recorded in the appended Trade (which is the min of
the two available quantities); and along any trace from the empty book the
ledger balances: admitted limit volume equals current resting volume plus
cancelled volume plus twice the cross-traded volume plus the market-traded
volume (each cross consumes two resting legs, each market execution one), and
the total quantity in the trade log is exactly the traded volume generated by
the submissions. -/
theorem c9_quantity_conservation :
    (∀ (now : ℚ) (s : Book) (b a : Order) (br ar : List Order),
      s.bids = b :: br → s.asks = a :: ar →
        bidVol s - bidVol (matchStep now s) = min b.quantity a.quantity ∧
        askVol s - askVol (matchStep now s) = min b.quantity a.quantity ∧
        tradeVol (matchStep now s) - tradeVol s = min b.quantity a.quantity) ∧
    (∀ (now : ℚ) (qty : ℤ) (s : Book) (a : Order) (ar : List Order), s.asks = a :: ar →
      askVol s - askVol (marketBuyStep now qty s) = min qty a.quantity ∧
      qty - (qty - marketBuyTq qty s) = min qty a.quantity ∧
      tradeVol (marketBuyStep now qty s) - tradeVol s = min qty a.quantity) ∧
    (∀ (now : ℚ) (qty : ℤ) (s : Book) (b : Order) (br : List Order), s.bids = b :: br →
      bidVol s - bidVol (marketSellStep now qty s) = min qty b.quantity ∧
      qty - (qty - marketSellTq qty s) = min qty b.quantity ∧
      tradeVol (marketSellStep now qty s) - tradeVol s = min qty b.quantity) ∧
    (∀ ops : List Op,
      traceSum (fun _ op => limitVolOf op) initBook ops =
        restingVol (runOps ops) + traceSum cancelVolOf initBook ops +
          2 * traceSum crossVolOf initBook ops + traceSum mktVolOf initBook ops) ∧
    (∀ ops : List Op,
      tradeVol (runOps ops) =
        traceSum crossVolOf initBook ops + traceSum mktVolOf initBook ops) := by
  refine ⟨?_, ?_, ?_, ?_, ?_⟩
  · intro now s b a br ar hb ha
    refine ⟨?_, ?_, ?_⟩
    · rw [matchStep_bidVol hb ha]
      omega
    · rw [matchStep_askVol hb ha]
      omega
    · rw [matchStep_tradeVol hb ha]
      omega
  · intro now qty s a ar ha
    refine ⟨?_, ?_, ?_⟩
    · rw [marketBuyStep_askVol ha]
      omega
    · rw [marketBuyTq_eq ha]
      omega
    · rw [marketBuyStep_tradeVol ha]
      omega
  · intro now qty s b br hb
    refine ⟨?_, ?_, ?_⟩
    · rw [marketSellStep_bidVol hb]
      omega
    · rw [marketSellTq_eq hb]
      omega
    · rw [marketSellStep_tradeVol hb]
      omega
  · intro ops
    have h := trace_ledger ops initBook
    have h0 : restingVol initBook = 0 := rfl
    rw [h0] at h
    show traceSum (fun _ op => limitVolOf op) initBook ops = restingVol (runFrom initBook ops) + _ + _ + _
    omega
  · intro ops
    have h := trace_tradeVol ops initBook
    have h0 : tradeVol initBook = 0 := rfl
    rw [h0] at h
    show tradeVol (runFrom initBook ops) = _
    omega

/-- Witness for C9 at one concrete crossing book and one concrete market
step. -/
theorem c9_quantity_conservation_witness :
    ((⟨[⟨1, "BUY", 100, 10, "LIMIT", 0, "p"⟩], [⟨2, "SELL", 99, 5, "LIMIT", 1, "q"⟩], [], [], 3, 100⟩ : Book).bids = [⟨1, "BUY", 100, 10, "LIMIT", 0, "p"⟩]) ∧
    ((⟨[⟨1, "BUY", 100, 10, "LIMIT", 0, "p"⟩], [⟨2, "SELL", 99, 5, "LIMIT", 1, "q"⟩], [], [], 3, 100⟩ : Book).asks = [⟨2, "SELL", 99, 5, "LIMIT", 1, "q"⟩]) ∧
    bidVol ⟨[⟨1, "BUY", 100, 10, "LIMIT", 0, "p"⟩], [⟨2, "SELL", 99, 5, "LIMIT", 1, "q"⟩], [], [], 3, 100⟩ -
      bidVol (matchStep 2 ⟨[⟨1, "BUY", 100, 10, "LIMIT", 0, "p"⟩], [⟨2, "SELL", 99, 5, "LIMIT", 1, "q"⟩], [], [], 3, 100⟩) = min 10 5 ∧
    ((⟨[], [⟨1, "SELL", 100, 10, "LIMIT", 0, "p"⟩], [], [], 2, 100⟩ : Book).asks = [⟨1, "SELL", 100, 10, "LIMIT", 0, "p"⟩]) ∧
    askVol ⟨[], [⟨1, "SELL", 100, 10, "LIMIT", 0, "p"⟩], [], [], 2, 100⟩ -
      askVol (marketBuyStep 1 15 ⟨[], [⟨1, "SELL", 100, 10, "LIMIT", 0, "p"⟩], [], [], 2, 100⟩) = min 15 10 :=
  ⟨rfl, rfl,
    (c9_quantity_conservation.1 2
      ⟨[⟨1, "BUY", 100, 10, "LIMIT", 0, "p"⟩], [⟨2, "SELL", 99, 5, "LIMIT", 1, "q"⟩], [], [], 3, 100⟩
      ⟨1, "BUY", 100, 10, "LIMIT", 0, "p"⟩ ⟨2, "SELL", 99, 5, "LIMIT", 1, "q"⟩ [] [] rfl rfl).1,
    rfl,
    (c9_quantity_conservation.2.1 1 15
      ⟨[], [⟨1, "SELL", 100, 10, "LIMIT", 0, "p"⟩], [], [], 2, 100⟩
      ⟨1, "SELL", 100, 10, "LIMIT", 0, "p"⟩ [] rfl).1⟩

/-- C10: the fixed default reference price is exactly 100.0: the fresh engine
stores last trade price 100 and, with an empty side and no trades, returns
mid price 100; thereafter every executed match (limit cross or market
execution) overwrites the stored last trade price with the price of the trade
it records, and that stored price is what `get_mid_price` returns whenever a
side is empty. -/
theorem c10_default_price_100 :
    initBook.last_trade_price = 100 ∧
    get_mid_price initBook = 100 ∧
    (∀ (now : ℚ) (s : Book) (b a : Order) (br ar : List Order),
      s.bids = b :: br → s.asks = a :: ar →
        (matchStep now s).last_trade_price = a.price ∧
        (matchStep now s).trades = s.trades ++ [⟨now, a.price, min b.quantity a.quantity, if a.timestamp < b.timestamp then "BUY" else "SELL"⟩]) ∧
    (∀ (now : ℚ) (qty : ℤ) (s : Book) (a : Order) (ar : List Order), s.asks = a :: ar →
      (marketBuyStep now qty s).last_trade_price = a.price ∧
      (marketBuyStep now qty s).trades = s.trades ++ [⟨now, a.price, min qty a.quantity, "BUY"⟩]) ∧
    (∀ (now : ℚ) (qty : ℤ) (s : Book) (b : Order) (br : List Order), s.bids = b :: br →
      (marketSellStep now qty s).last_trade_price = b.price ∧
      (marketSellStep now qty s).trades = s.trades ++ [⟨now, b.price, min qty b.quantity, "SELL"⟩]) ∧
    (∀ s : Book, s.bids = [] ∨ s.asks = [] → get_mid_price s = s.last_trade_price) := by
  refine ⟨rfl, by decide, ?_, ?_, ?_, fun s h => get_mid_price_empty h⟩
  · intro now s b a br ar hb ha
    exact ⟨matchStep_ltp hb ha, matchStep_trades hb ha⟩
  · intro now qty s a ar ha
    exact ⟨marketBuyStep_ltp ha, marketBuyStep_trades ha⟩
  · intro now qty s b br hb
    exact ⟨marketSellStep_ltp hb, marketSellStep_trades hb⟩

/-- Witness for C10: a cross at ask price 99 stores 99 as the last trade
price, and the empty book then reports it. -/
theorem c10_default_price_100_witness :
    ((⟨[⟨1, "BUY", 100, 10, "LIMIT", 0, "p"⟩], [⟨2, "SELL", 99, 5, "LIMIT", 1, "q"⟩], [], [], 3, 100⟩ : Book).bids = [⟨1, "BUY", 100, 10, "LIMIT", 0, "p"⟩]) ∧
    ((⟨[⟨1, "BUY", 100, 10, "LIMIT", 0, "p"⟩], [⟨2, "SELL", 99, 5, "LIMIT", 1, "q"⟩], [], [], 3, 100⟩ : Book).asks = [⟨2, "SELL", 99, 5, "LIMIT", 1, "q"⟩]) ∧
    (matchStep 2 ⟨[⟨1, "BUY", 100, 10, "LIMIT", 0, "p"⟩], [⟨2, "SELL", 99, 5, "LIMIT", 1, "q"⟩], [], [], 3, 100⟩).last_trade_price = (⟨2, "SELL", 99, 5, "LIMIT", 1, "q"⟩ : Order).price ∧
    (initBook.bids = [] ∨ initBook.asks = []) ∧
    get_mid_price initBook = initBook.last_trade_price :=
  ⟨rfl, rfl,
    (c10_default_price_100.2.2.1 2
      ⟨[⟨1, "BUY", 100, 10, "LIMIT", 0, "p"⟩], [⟨2, "SELL", 99, 5, "LIMIT", 1, "q"⟩], [], [], 3, 100⟩
      ⟨1, "BUY", 100, 10, "LIMIT", 0, "p"⟩ ⟨2, "SELL", 99, 5, "LIMIT", 1, "q"⟩ [] [] rfl rfl).1,
    Or.inl rfl,
    c10_default_price_100.2.2.2.2.2 initBook (Or.inl rfl)⟩

end OrderBookSim
